import Mathlib

/-!
Verification development for the STARK shard verifier core: a shallow
embedding, in Lean 4, of the Merkle vector commitment
(crates/recursion/circuit-v2/src/merkle_tree.rs), the shard verifier
(crates/stark/src/verifier.rs), the witness read/write binding layer
(crates/recursion/circuit-v2/src/machine/witness.rs), the memory
initialize/finalize events (core/src/memory/mod.rs) and the zkVM I/O stubs
(zkvm/precompiles/src/io.rs).

Conventions of the embedding: Rust machine integers become Nat (no wrapping
arithmetic occurs in the modelled code paths); Rust panics (asserts, slice
index out of range, `zip_eq` length mismatch, arithmetic underflow,
`unimplemented`) are modelled as `Option.none` or an explicit `panicked`
outcome; mutation becomes explicit state passing.  External capabilities
(field, extension field, domains, hash, PCS, challenger) are abstracted
exactly at the trait boundary the source consumes them through.
-/

/-! ## Bit-reversal utilities (p3_util::reverse_bits_len and
reverse_slice_index_bits, consumed by merkle_tree.rs). `reverseBitsLen x b`
reverses the low `b` bits of `x` and drops the rest, exactly as
`x.reverse_bits() >> (BITS - b)` does for `x < 2^b`. -/

def reverseBitsLen : Nat → Nat → Nat
  | _, 0 => 0
  | x, b + 1 => reverseBitsLen (x / 2) b + x % 2 * 2 ^ b

/-- `reverse_slice_index_bits` on a layer of length `2^h`: the element at
position `i` of the result is the input element at position `rev_h(i)`. -/
def bitRevPerm (dflt : α) (h : Nat) (l : List α) : List α :=
  (List.range (2 ^ h)).map (fun i => l.getD (reverseBitsLen i h) dflt)

/-- Fuel-based ceiling log2: `clog2 n` is the exponent such that
`n.next_power_of_two() = 2 ^ clog2 n` (and `log2_strict_usize` of that
power).  Structural recursion so the kernel can evaluate it. -/
def clog2Aux : Nat → Nat → Nat
  | 0, _ => 0
  | fuel + 1, n => if n ≤ 1 then 0 else clog2Aux fuel ((n + 1) / 2) + 1

def clog2 (n : Nat) : Nat := clog2Aux n n

/-! ## Merkle commitment (merkle_tree.rs) -/

/-- merkle_tree.rs lines 14-23. -/
structure MerkleTree (Digest : Type) where
  height : Nat
  digest_layers : List Digest

inductive VcsError : Type
  | vcsError : VcsError
  deriving DecidableEq, Repr

namespace MerkleTree

variable {Digest : Type}

/-- One reduction step of `commit`'s layer loop: compress adjacent pairs
(`last_layer.iter().tuples()` drops a trailing unpaired element). -/
def compressPairs (compress : Digest → Digest → Digest) : List Digest → List Digest
  | a :: b :: rest => compress a b :: compressPairs compress rest
  | _ => []

/-- The `k`-th layer above `L` (layer 0 is `L` itself). -/
def layerN (compress : Digest → Digest → Digest) (L : List Digest) : Nat → List Digest
  | 0 => L
  | k + 1 => compressPairs compress (layerN compress L k)

/-- Layers `0..=m` concatenated: the `digest_layers` vector that `commit`
accumulates when `m = height - 1`. -/
def layersFlat (compress : Digest → Digest → Digest) (L : List Digest) : Nat → List Digest
  | 0 => L
  | m + 1 => layersFlat compress L m ++ layerN compress L (m + 1)

/-- The same layers `0..=m`, accumulated from the front: `layersTo L (m+1)`
is `L` followed by the layers of `compressPairs L` — the view the opening
walk consumes. -/
def layersTo (compress : Digest → Digest → Digest) (L : List Digest) : Nat → List Digest
  | 0 => []
  | f + 1 => L ++ layersTo compress (compressPairs compress L) f

/-- merkle_tree.rs lines 33-68.  `none` models the panics: the
`assert!(!leaves.is_empty())`, and — when `height = 0`, i.e. a single leaf —
the `0..height - 1` usize underflow / `last_layer[1]` index panic.
`next_power_of_two` and `log2_strict_usize` are modelled by `2 ^ clog2` and
`clog2`. -/
def commit (dflt : Digest) (compress : Digest → Digest → Digest)
    (leaves : List Digest) : Option (Digest × MerkleTree Digest) :=
  if leaves.isEmpty then none
  else
    let height := clog2 leaves.length
    let new_len := 2 ^ height
    let padded := leaves ++ List.replicate (new_len - leaves.length) dflt
    let lastLayer0 := bitRevPerm dflt height padded
    if height = 0 then none
    else
      let digest_layers := layersFlat compress lastLayer0 (height - 1)
      match layerN compress lastLayer0 (height - 1) with
      | [a, b] => some (compress a b, ⟨height, digest_layers⟩)
      | _ => none

/-- The sibling walk of `open` (merkle_tree.rs lines 77-88): one sibling per
level; `fuel` counts the levels still to visit, so at fuel `f + 1` the
current level is `height - (f + 1)` and the source's
`offset += 1 << (height - i)` is `offset + 2 ^ (f + 1)`. -/
def openAux (dflt : Digest) (L : List Digest) : Nat → Nat → Nat → List Digest
  | 0, _, _ => []
  | f + 1, bri, offset =>
    L.getD (offset + (if bri % 2 = 0 then bri + 1 else bri - 1)) dflt ::
      openAux dflt L f (bri / 2) (offset + 2 ^ (f + 1))

/-- merkle_tree.rs lines 70-91 (`open`). -/
def open' (dflt : Digest) (t : MerkleTree Digest) (index : Nat) :
    Digest × List Digest :=
  let bit_rev_index := reverseBitsLen index t.height
  (t.digest_layers.getD bit_rev_index dflt,
    openAux dflt t.digest_layers t.height bit_rev_index 0)

/-- The fold of `verify` (merkle_tree.rs lines 103-110): pair
`[value, sibling]` when the running index is even, `[sibling, value]` when
odd, compress, shift. -/
def verifyClimb (compress : Digest → Digest → Digest) :
    Digest → Nat → List Digest → Digest
  | value, _, [] => value
  | value, i, sibling :: rest =>
    verifyClimb compress
      (if i % 2 = 0 then compress value sibling else compress sibling value)
      (i / 2) rest

/-- merkle_tree.rs lines 93-116 (`verify`). -/
def verify [DecidableEq Digest] (compress : Digest → Digest → Digest)
    (index : Nat) (value : Digest) (path : List Digest) (commitment : Digest) :
    Except VcsError Unit :=
  let i := reverseBitsLen index path.length
  if verifyClimb compress value i path = commitment then Except.ok ()
  else Except.error VcsError.vcsError

end MerkleTree

/-! ## Memory initialize/finalize events (core/src/memory/mod.rs) -/

/-- core/src/memory/mod.rs lines 23-30.  The five u32 fields, as Nat (the
modelled code only constructs records, no wrapping arithmetic). -/
structure MemoryInitializeFinalizeEvent where
  addr : Nat
  value : Nat
  shard : Nat
  timestamp : Nat
  used : Nat
  deriving DecidableEq, Repr

/-- The fields of `runtime::MemoryRecord` that
`MemoryInitializeFinalizeEvent::finalize_from_record` reads (the struct
itself lives outside the staged sources; its three fields here are exactly
the ones the staged code dereferences). -/
structure MemoryRecord where
  value : Nat
  shard : Nat
  clk : Nat
  deriving DecidableEq, Repr

namespace MemoryInitializeFinalizeEvent

/-- core/src/memory/mod.rs lines 33-42 (`initialize`; the Rust name is a
reserved word of this development's toolchain, hence the prime). -/
def initialize' (addr : Nat) (value : Nat) (used : Bool) :
    MemoryInitializeFinalizeEvent :=
  { addr := addr
    value := value
    shard := 1
    timestamp := 1
    used := if used then 1 else 0 }

/-- core/src/memory/mod.rs lines 44-52. -/
def finalize_from_record (addr : Nat) (record : MemoryRecord) :
    MemoryInitializeFinalizeEvent :=
  { addr := addr
    value := record.value
    shard := record.shard
    timestamp := record.clk
    used := 1 }

end MemoryInitializeFinalizeEvent

/-! ## zkVM I/O boundary (zkvm/precompiles/src/io.rs).  The syscall layer is
modelled as an environment (the hint stream) plus an event trace;
`unimplemented!()` is the `panicked` outcome. -/

inductive IoEvent : Type
  | hintLen : IoEvent
  | alloc (size : Nat) (align : Nat) : IoEvent
  | hintRead (len : Nat) : IoEvent
  | printVec (bytes : List Nat) : IoEvent
  | writeBytes (fd : Nat) (bytes : List Nat) : IoEvent
  deriving DecidableEq, Repr

inductive PanicOr (α : Type) : Type
  | panicked : PanicOr α
  | ok (a : α) : PanicOr α
  deriving DecidableEq, Repr

structure IoEnv where
  hintLenVal : Nat
  hintData : List Nat
  deriving Repr

def FD_PUBLIC_VALUES : Nat := 3

def FD_HINT : Nat := 4

/-- io.rs lines 31-53 (`read_vec`): `syscall_hint_len`, then an allocation of
`(len + 3) / 4 * 4` bytes at 4-byte alignment, then `syscall_hint_read` of
`len` bytes; returns the hint bytes. -/
def read_vec (env : IoEnv) : List IoEvent × List Nat :=
  let len := env.hintLenVal
  let capacity := (len + 3) / 4 * 4
  ([IoEvent.hintLen, IoEvent.alloc capacity 4, IoEvent.hintRead len],
    env.hintData.take len)

/-- io.rs lines 55-60 (`read::<T>`): `read_vec`, `println!` of the bytes,
then `unimplemented!()` — the `bincode::deserialize` line is never reached,
so the function is independent of `T` and never returns. -/
def io_read (env : IoEnv) : List IoEvent × PanicOr Unit :=
  let vp := read_vec env
  (vp.1 ++ [IoEvent.printVec vp.2], PanicOr.panicked)

/-- io.rs lines 62-68 (`commit::<T>`): the `SyscallWriter` for
`FD_PUBLIC_VALUES` is constructed (no syscall), then `unimplemented!()` —
the `bincode::serialize_into` line is never reached, so no byte is ever
written. -/
def io_commit : List IoEvent × PanicOr Unit :=
  ([], PanicOr.panicked)

/-! ## Witness read/write binding
(crates/recursion/circuit-v2/src/machine/witness.rs).

A witness stream is a list of primitive elements; `write` appends the
primitives of a value, `read` consumes the primitives of a value's shape
from the stream and returns the reconstructed variable (the source's
`read(&self, builder)` walks `self` for the shape and pulls each leaf from
the builder's witness stream).  A `WitComp` packages one `Witnessable`
implementation: its `write`, its `read`, and `var`, the variable a faithful
stream reproduces. -/

inductive WElem (F E : Type) : Type
  | felt (x : F) : WElem F E
  | ext (x : E) : WElem F E
  deriving DecidableEq, Repr

structure WitComp (F E α β : Type) where
  write : α → List (WElem F E)
  read : α → List (WElem F E) → Option (β × List (WElem F E))
  var : α → β

/-- The read/write contract of §4.H: reading a value back from a stream that
starts with its own `write` output consumes exactly that output and yields
the value's variable. -/
def Roundtrips {F E α β : Type} (c : WitComp F E α β) : Prop :=
  ∀ a s, c.read a (c.write a ++ s) = some (c.var a, s)

/-- Base field element (`Felt`): write the element, read one felt. -/
def feltComp (F E : Type) : WitComp F E F F :=
  { write := fun x => [WElem.felt x]
    read := fun _ s =>
      match s with
      | WElem.felt y :: rest => some (y, rest)
      | _ => none
    var := fun x => x }

/-- Modelled from the spec: the base `Witnessable for bool` implementation
is outside the staged sources; §4.H says an `is_complete` boolean is first
coerced to a field element via `from_bool(b)` and then read/written as a
felt. -/
def boolComp (F E : Type) (from_bool : Bool → F) : WitComp F E Bool F :=
  { write := fun b => [WElem.felt (from_bool b)]
    read := fun _ s =>
      match s with
      | WElem.felt y :: rest => some (y, rest)
      | _ => none
    var := fun b => from_bool b }

def readListAux {F E α β : Type}
    (rd : α → List (WElem F E) → Option (β × List (WElem F E))) :
    List α → List (WElem F E) → Option (List β × List (WElem F E))
  | [], s => some ([], s)
  | a :: l, s =>
    (rd a s).bind fun p =>
      (readListAux rd l p.2).map fun q => (p.1 :: q.1, q.2)

/-- Arrays and `Vec`s: element-wise in order (§4.H). -/
def listComp {F E α β : Type} (c : WitComp F E α β) :
    WitComp F E (List α) (List β) :=
  { write := fun l => (l.map c.write).flatten
    read := fun l s => readListAux c.read l s
    var := fun l => l.map c.var }

/-- Tuples `(A, B)`: A's fields then B's. -/
def pairComp {F E α β γ δ : Type} (c1 : WitComp F E α β)
    (c2 : WitComp F E γ δ) : WitComp F E (α × γ) (β × δ) :=
  { write := fun p => c1.write p.1 ++ c2.write p.2
    read := fun p s =>
      (c1.read p.1 s).bind fun q1 =>
        (c2.read p.2 q1.2).map fun q2 => ((q1.1, q2.1), q2.2)
    var := fun p => (c1.var p.1, c2.var p.2) }

/-- `Word<T>`: the 4-lane wrapper `Word(pub [T; 4])`, modelled with a list
carrier. -/
structure Word (α : Type) where
  elems : List α
  deriving DecidableEq, Repr

/-- witness.rs lines 26-36 (`Witnessable for Word<T>`): read/write `self.0`
element-wise. -/
def wordComp {F E α β : Type} (c : WitComp F E α β) :
    WitComp F E (Word α) (Word β) :=
  { write := fun w => (listComp c).write w.elems
    read := fun w s =>
      ((listComp c).read w.elems s).map fun p => (Word.mk p.1, p.2)
    var := fun w => Word.mk ((listComp c).var w.elems) }

/-- witness.rs lines 58-74 (`Witnessable for Hash<F, W, DIGEST_ELEMENTS>`):
borrow as `[W; DIGEST_ELEMENTS]` and read/write the array element-wise. -/
def hashComp {F E α β : Type} (c : WitComp F E α β) :
    WitComp F E (List α) (List β) :=
  { write := fun a => (listComp c).write a
    read := fun a s => (listComp c).read a s
    var := fun a => (listComp c).var a }

/-- `DuplexChallenger` and its variable: `sponge_state`, `input_buffer`,
`output_buffer`, all felt sequences. -/
structure DuplexChallengerW (F : Type) where
  sponge_state : List F
  input_buffer : List F
  output_buffer : List F
  deriving DecidableEq, Repr

/-- witness.rs lines 38-56 (`Witnessable for DuplexChallenger`): read and
write `sponge_state`, then `input_buffer`, then `output_buffer`. -/
def duplexComp (F E : Type) :
    WitComp F E (DuplexChallengerW F) (DuplexChallengerW F) :=
  { write := fun c =>
      (listComp (feltComp F E)).write c.sponge_state ++
        (listComp (feltComp F E)).write c.input_buffer ++
          (listComp (feltComp F E)).write c.output_buffer
    read := fun c s =>
      ((listComp (feltComp F E)).read c.sponge_state s).bind fun p1 =>
        ((listComp (feltComp F E)).read c.input_buffer p1.2).bind fun p2 =>
          ((listComp (feltComp F E)).read c.output_buffer p2.2).map fun p3 =>
            (DuplexChallengerW.mk p1.1 p2.1 p3.1, p3.2)
    var := fun c => DuplexChallengerW.mk c.sponge_state c.input_buffer c.output_buffer }

/-- `StarkVerifyingKey` as the witness layer sees it: a digest commitment, a
`pc_start` felt, and two opaque metadata fields (`MI`, `MO`) that are
carried, never witnessed. -/
structure StarkVerifyingKeyW (F MI MO : Type) where
  commit : List F
  pc_start : F
  chip_information : MI
  chip_ordering : MO
  deriving Repr

structure VerifyingKeyVariableW (F MI MO : Type) where
  commitment : List F
  pc_start : F
  chip_information : MI
  chip_ordering : MO
  deriving Repr

/-- witness.rs lines 76-94 (`Witnessable for StarkVerifyingKey`): read
`commit` then `pc_start`; clone `chip_information` and `chip_ordering` as
plain metadata.  `write` emits `commit` then `pc_start` and nothing else. -/
def vkComp (F E MI MO : Type) :
    WitComp F E (StarkVerifyingKeyW F MI MO) (VerifyingKeyVariableW F MI MO) :=
  { write := fun vk =>
      (hashComp (feltComp F E)).write vk.commit ++ (feltComp F E).write vk.pc_start
    read := fun vk s =>
      ((hashComp (feltComp F E)).read vk.commit s).bind fun p1 =>
        ((feltComp F E).read vk.pc_start p1.2).map fun p2 =>
          (VerifyingKeyVariableW.mk p1.1 p2.1 vk.chip_information vk.chip_ordering, p2.2)
    var := fun vk =>
      VerifyingKeyVariableW.mk ((hashComp (feltComp F E)).var vk.commit)
        vk.pc_start vk.chip_information vk.chip_ordering }

structure SP1RecursionWitnessValuesW (F MI MO P : Type) where
  vk : StarkVerifyingKeyW F MI MO
  shard_proofs : List P
  leaf_challenger : DuplexChallengerW F
  initial_reconstruct_challenger : DuplexChallengerW F
  is_complete : Bool

structure SP1RecursionWitnessVariableW (F MI MO PV : Type) where
  vk : VerifyingKeyVariableW F MI MO
  shard_proofs : List PV
  leaf_challenger : DuplexChallengerW F
  initial_reconstruct_challenger : DuplexChallengerW F
  is_complete : F

/-- witness.rs lines 96-124 (`Witnessable for SP1RecursionWitnessValues`),
generic over the shard-proof component `cp` exactly as the source is generic
over `ShardProof`'s `Witnessable`: vk, shard_proofs, leaf_challenger,
initial_reconstruct_challenger, is_complete — in that order in both
directions, with `is_complete` read through `from_bool`. -/
def recursionComp {F E MI MO P PV : Type} (from_bool : Bool → F)
    (cp : WitComp F E P PV) :
    WitComp F E (SP1RecursionWitnessValuesW F MI MO P)
      (SP1RecursionWitnessVariableW F MI MO PV) :=
  { write := fun v =>
      (vkComp F E MI MO).write v.vk ++
        (listComp cp).write v.shard_proofs ++
          (duplexComp F E).write v.leaf_challenger ++
            (duplexComp F E).write v.initial_reconstruct_challenger ++
              (boolComp F E from_bool).write v.is_complete
    read := fun v s =>
      ((vkComp F E MI MO).read v.vk s).bind fun p1 =>
        ((listComp cp).read v.shard_proofs p1.2).bind fun p2 =>
          ((duplexComp F E).read v.leaf_challenger p2.2).bind fun p3 =>
            ((duplexComp F E).read v.initial_reconstruct_challenger p3.2).bind fun p4 =>
              ((boolComp F E from_bool).read v.is_complete p4.2).map fun p5 =>
                (SP1RecursionWitnessVariableW.mk p1.1 p2.1 p3.1 p4.1 p5.1, p5.2)
    var := fun v =>
      SP1RecursionWitnessVariableW.mk ((vkComp F E MI MO).var v.vk)
        ((listComp cp).var v.shard_proofs) ((duplexComp F E).var v.leaf_challenger)
        ((duplexComp F E).var v.initial_reconstruct_challenger)
        (from_bool v.is_complete) }

structure SP1CompressWitnessValuesW (F MI MO P : Type) where
  vks_and_proofs : List (StarkVerifyingKeyW F MI MO × P)
  is_complete : Bool

structure SP1CompressWitnessVariableW (F MI MO PV : Type) where
  vks_and_proofs : List (VerifyingKeyVariableW F MI MO × PV)
  is_complete : F

/-- witness.rs lines 126-143 (`Witnessable for SP1CompressWitnessValues`):
vks_and_proofs (a sequence of (vk, proof) pairs), then is_complete via
`from_bool`. -/
def compressComp {F E MI MO P PV : Type} (from_bool : Bool → F)
    (cp : WitComp F E P PV) :
    WitComp F E (SP1CompressWitnessValuesW F MI MO P)
      (SP1CompressWitnessVariableW F MI MO PV) :=
  { write := fun v =>
      (listComp (pairComp (vkComp F E MI MO) cp)).write v.vks_and_proofs ++
        (boolComp F E from_bool).write v.is_complete
    read := fun v s =>
      ((listComp (pairComp (vkComp F E MI MO) cp)).read v.vks_and_proofs s).bind fun p1 =>
        ((boolComp F E from_bool).read v.is_complete p1.2).map fun p2 =>
          (SP1CompressWitnessVariableW.mk p1.1 p2.1, p2.2)
    var := fun v =>
      SP1CompressWitnessVariableW.mk
        ((listComp (pairComp (vkComp F E MI MO) cp)).var v.vks_and_proofs)
        (from_bool v.is_complete) }

structure SP1DeferredWitnessValuesW (F MI MO P : Type) where
  vks_and_proofs : List (StarkVerifyingKeyW F MI MO × P)
  start_reconstruct_deferred_digest : List F
  sp1_vk : StarkVerifyingKeyW F MI MO
  leaf_challenger : DuplexChallengerW F
  committed_value_digest : List (Word F)
  deferred_proofs_digest : List F
  end_pc : F
  end_shard : F
  end_execution_shard : F
  init_addr_bits : List F
  finalize_addr_bits : List F
  is_complete : Bool

structure SP1DeferredWitnessVariableW (F MI MO PV : Type) where
  vks_and_proofs : List (VerifyingKeyVariableW F MI MO × PV)
  start_reconstruct_deferred_digest : List F
  sp1_vk : VerifyingKeyVariableW F MI MO
  leaf_challenger : DuplexChallengerW F
  committed_value_digest : List (Word F)
  deferred_proofs_digest : List F
  end_pc : F
  end_shard : F
  end_execution_shard : F
  init_addr_bits : List F
  finalize_addr_bits : List F
  is_complete : F

/-- witness.rs lines 145-196 (`Witnessable for SP1DeferredWitnessValues`):
the twelve fields in source order in both directions, with `is_complete`
read through `from_bool`. -/
def deferredComp {F E MI MO P PV : Type} (from_bool : Bool → F)
    (cp : WitComp F E P PV) :
    WitComp F E (SP1DeferredWitnessValuesW F MI MO P)
      (SP1DeferredWitnessVariableW F MI MO PV) :=
  { write := fun v =>
      (listComp (pairComp (vkComp F E MI MO) cp)).write v.vks_and_proofs ++
        (listComp (feltComp F E)).write v.start_reconstruct_deferred_digest ++
          (vkComp F E MI MO).write v.sp1_vk ++
            (duplexComp F E).write v.leaf_challenger ++
              (listComp (wordComp (feltComp F E))).write v.committed_value_digest ++
                (listComp (feltComp F E)).write v.deferred_proofs_digest ++
                  (feltComp F E).write v.end_pc ++
                    (feltComp F E).write v.end_shard ++
                      (feltComp F E).write v.end_execution_shard ++
                        (listComp (feltComp F E)).write v.init_addr_bits ++
                          (listComp (feltComp F E)).write v.finalize_addr_bits ++
                            (boolComp F E from_bool).write v.is_complete
    read := fun v s =>
      ((listComp (pairComp (vkComp F E MI MO) cp)).read v.vks_and_proofs s).bind fun p1 =>
        ((listComp (feltComp F E)).read v.start_reconstruct_deferred_digest p1.2).bind fun p2 =>
          ((vkComp F E MI MO).read v.sp1_vk p2.2).bind fun p3 =>
            ((duplexComp F E).read v.leaf_challenger p3.2).bind fun p4 =>
              ((listComp (wordComp (feltComp F E))).read v.committed_value_digest p4.2).bind fun p5 =>
                ((listComp (feltComp F E)).read v.deferred_proofs_digest p5.2).bind fun p6 =>
                  ((feltComp F E).read v.end_pc p6.2).bind fun p7 =>
                    ((feltComp F E).read v.end_shard p7.2).bind fun p8 =>
                      ((feltComp F E).read v.end_execution_shard p8.2).bind fun p9 =>
                        ((listComp (feltComp F E)).read v.init_addr_bits p9.2).bind fun p10 =>
                          ((listComp (feltComp F E)).read v.finalize_addr_bits p10.2).bind fun p11 =>
                            ((boolComp F E from_bool).read v.is_complete p11.2).map fun p12 =>
                              (SP1DeferredWitnessVariableW.mk p1.1 p2.1 p3.1 p4.1 p5.1
                                p6.1 p7.1 p8.1 p9.1 p10.1 p11.1 p12.1, p12.2)
    var := fun v =>
      SP1DeferredWitnessVariableW.mk
        ((listComp (pairComp (vkComp F E MI MO) cp)).var v.vks_and_proofs)
        ((listComp (feltComp F E)).var v.start_reconstruct_deferred_digest)
        ((vkComp F E MI MO).var v.sp1_vk) ((duplexComp F E).var v.leaf_challenger)
        ((listComp (wordComp (feltComp F E))).var v.committed_value_digest)
        ((listComp (feltComp F E)).var v.deferred_proofs_digest)
        v.end_pc v.end_shard v.end_execution_shard
        ((listComp (feltComp F E)).var v.init_addr_bits)
        ((listComp (feltComp F E)).var v.finalize_addr_bits)
        (from_bool v.is_complete) }

/-! ## STARK shard verifier (crates/stark/src/verifier.rs).

The embedding is generic over the base field `F`, the extension field `E`
(a `CommRing`, with the capability's degree `D`, monomial basis and
`inverse()` packaged in `ExtParams`), the commitment type `Com`, the domain
type `Dom` (its operations in `DomOps`), the PCS error `OErr` and the opaque
opening proof `PProof` — exactly the trait parameters of
`StarkGenericConfig`.  The challenger is an oracle (`sampleFn`) plus an
append-only event log, abstracting `CanObserve`/`FieldChallenger`. -/

structure ExtParams (E : Type) where
  D : Nat
  monomial : Nat → E
  einv : E → E

structure LagrangeSelectors (E : Type) where
  is_first_row : E
  is_last_row : E
  is_transition : E
  inv_zeroifier : E

structure DomOps (E Dom : Type) where
  next_point : Dom → E → E
  zp_at_point : Dom → E → E
  first_point : Dom → E
  selectors_at_point : Dom → E → LagrangeSelectors E
  create_disjoint_domain : Dom → Nat → Dom
  split_domains : Dom → Nat → List Dom

/-- `AirOpenedValues` (`local` is a keyword here, hence `local'`). -/
structure AirOpenedValues (E : Type) where
  local' : List E
  next : List E

structure ChipOpenedValues (E : Type) where
  preprocessed : AirOpenedValues E
  main : AirOpenedValues E
  permutation : AirOpenedValues E
  quotient : List (List E)
  cumulative_sum : E
  log_degree : Nat

structure ShardCommitment (Com : Type) where
  main_commit : Com
  permutation_commit : Com
  quotient_commit : Com

structure ShardOpenedValues (E : Type) where
  chips : List (ChipOpenedValues E)

structure ShardProof (F E Com PProof : Type) where
  commitment : ShardCommitment Com
  opened_values : ShardOpenedValues E
  opening_proof : PProof
  chip_ordering : String → Nat
  public_values : List F

structure StarkVerifyingKey (F Com Dom : Type) where
  commit : Com
  pc_start : F
  chip_information : List (String × Dom)
  chip_ordering : String → Nat

/-- The folder view handed to `chip.eval` (stark/src/folder.rs as consumed
by verifier.rs lines 310-323). -/
structure VerifierConstraintFolder (F E : Type) where
  preprocessed : AirOpenedValues E
  main : AirOpenedValues E
  perm : AirOpenedValues E
  perm_challenges : List E
  cumulative_sum : E
  is_first_row : E
  is_last_row : E
  is_transition : E
  alpha : E
  accumulator : E
  public_values : List F

/-- The `MachineChip` capability: width queries plus the AIR evaluation,
modelled as the final accumulator the chip leaves in the folder. -/
structure MachineChip (F E : Type) where
  name : String
  preprocessed_width : Nat
  width : Nat
  permutation_width : Nat
  log_quotient_degree : Nat
  eval : VerifierConstraintFolder F E → E

/-- Modelled from the spec: `MachineChip::quotient_width` lives in chip.rs
outside the staged sources; §3 invariant 4 fixes it as
`1 << log_quotient_degree()`. -/
def MachineChip.quotient_width {F E : Type} (c : MachineChip F E) : Nat :=
  2 ^ c.log_quotient_degree

inductive ChalEvent (Com : Type) : Type
  | sample : ChalEvent Com
  | observe (c : Com) : ChalEvent Com
  deriving DecidableEq, Repr

/-- The Fiat-Shamir challenger, abstracted as an oracle of future sampled
values plus an append-only log of its interactions. -/
structure Challenger (E Com : Type) where
  sampleFn : Nat → E
  count : Nat
  events : List (ChalEvent Com)

def Challenger.sample_ext_element {E Com : Type} (c : Challenger E Com) :
    E × Challenger E Com :=
  (c.sampleFn c.count,
    { c with count := c.count + 1, events := c.events ++ [ChalEvent.sample] })

def Challenger.observe {E Com : Type} (c : Challenger E Com) (com : Com) :
    Challenger E Com :=
  { c with events := c.events ++ [ChalEvent.observe com] }

/-- The PCS as verifier.rs consumes it: `natural_domain_for_degree` and a
black-box `verify` over four `(commit, (domain, (point, values)))` batches,
borrowing (and returning) the challenger. -/
structure Pcs (E Com Dom OErr PProof : Type) where
  natural_domain_for_degree : Nat → Dom
  verify : List (Com × List (Dom × List (E × List E))) → PProof →
    Challenger E Com → Except OErr (Challenger E Com)

/-- verifier.rs lines 373-384. -/
inductive OpeningShapeError : Type
  | PreprocessedWidthMismatch (expected actual : Nat) : OpeningShapeError
  | MainWidthMismatch (expected actual : Nat) : OpeningShapeError
  | PermutationWidthMismatch (expected actual : Nat) : OpeningShapeError
  | QuotientWidthMismatch (expected actual : Nat) : OpeningShapeError
  | QuotientChunkSizeMismatch (expected actual : Nat) : OpeningShapeError
  deriving DecidableEq, Repr

/-- verifier.rs line 370. -/
inductive OodEvaluationMismatch : Type
  | mk : OodEvaluationMismatch
  deriving DecidableEq, Repr

/-- verifier.rs lines 387-400 (the source variant is spelled
`InvalidopeningArgument`). -/
inductive VerificationError (OErr : Type) : Type
  | InvalidopeningArgument (e : OErr) : VerificationError OErr
  | OodEvaluationMismatch (chip : String) : VerificationError OErr
  | OpeningShapeError (chip : String) (e : OpeningShapeError) : VerificationError OErr
  | MissingCpuChip : VerificationError OErr
  | ChipOpeningLengthMismatch : VerificationError OErr
  deriving DecidableEq, Repr

/-- verifier.rs lines 182-244 (`verify_opening_shape`): the five checks in
source order, first failure wins; `D` is `SC::Challenge::D`. -/
def verify_opening_shape {F E : Type} (P : ExtParams E) (chip : MachineChip F E)
    (opening : ChipOpenedValues E) : Except OpeningShapeError Unit :=
  if opening.preprocessed.local'.length ≠ chip.preprocessed_width then
    Except.error (OpeningShapeError.PreprocessedWidthMismatch
      chip.preprocessed_width opening.preprocessed.local'.length)
  else if opening.preprocessed.next.length ≠ chip.preprocessed_width then
    Except.error (OpeningShapeError.PreprocessedWidthMismatch
      chip.preprocessed_width opening.preprocessed.next.length)
  else if opening.main.local'.length ≠ chip.width then
    Except.error (OpeningShapeError.MainWidthMismatch
      chip.width opening.main.local'.length)
  else if opening.main.next.length ≠ chip.width then
    Except.error (OpeningShapeError.MainWidthMismatch
      chip.width opening.main.next.length)
  else if opening.permutation.local'.length ≠ chip.permutation_width * P.D then
    Except.error (OpeningShapeError.PermutationWidthMismatch
      chip.permutation_width opening.permutation.local'.length)
  else if opening.permutation.next.length ≠ chip.permutation_width * P.D then
    Except.error (OpeningShapeError.PermutationWidthMismatch
      chip.permutation_width opening.permutation.next.length)
  else if opening.quotient.length ≠ chip.quotient_width then
    Except.error (OpeningShapeError.QuotientWidthMismatch
      chip.quotient_width opening.quotient.length)
  else
    match opening.quotient.find? (fun slice => slice.length ≠ P.D) with
    | some slice =>
      Except.error (OpeningShapeError.QuotientChunkSizeMismatch P.D slice.length)
    | none => Except.ok ()

/-- `chunks_exact(D)` (drops a trailing chunk shorter than `D`), with fuel
so the kernel can evaluate it. -/
def chunksExactAux {α : Type} : Nat → Nat → List α → List (List α)
  | 0, _, _ => []
  | fuel + 1, d, l =>
    if d = 0 then [] else if l.length < d then []
    else l.take d :: chunksExactAux fuel d (l.drop d)

def chunksExact {α : Type} (d : Nat) (l : List α) : List (List α) :=
  chunksExactAux l.length d l

/-- verifier.rs lines 285-328 (`eval_constraints`): unflatten the
permutation openings into extension elements by the monomial basis, build
the folder with a zero accumulator, run the chip. -/
def eval_constraints {F E : Type} [CommRing E] (P : ExtParams E)
    (chip : MachineChip F E) (opening : ChipOpenedValues E)
    (selectors : LagrangeSelectors E) (alpha : E)
    (permutation_challenges : List E) (public_values : List F) : E :=
  let unflatten : List E → List E := fun v =>
    (chunksExact P.D v).map fun chunk =>
      (chunk.enum.map fun p => P.monomial p.1 * p.2).sum
  let perm_opening : AirOpenedValues E :=
    { local' := unflatten opening.permutation.local'
      next := unflatten opening.permutation.next }
  chip.eval
    { preprocessed := opening.preprocessed
      main := opening.main
      perm := perm_opening
      perm_challenges := permutation_challenges
      cumulative_sum := opening.cumulative_sum
      is_first_row := selectors.is_first_row
      is_last_row := selectors.is_last_row
      is_transition := selectors.is_transition
      alpha := alpha
      accumulator := 0
      public_values := public_values }

/-- The pure value of `recompute_quotient` (verifier.rs lines 331-366):
`zps` weights then the double sum over chunks and monomials.  The total
`zps.getD` here stands for the source's `zps[ch_i]` Vec index; its junk
branch is unreachable through `recompute_quotient`, whose guard models the
source's index panic as `none` before this value is ever exposed. -/
def recompute_quotient_val {E Dom : Type} [CommRing E] (P : ExtParams E)
    (dops : DomOps E Dom) (opening : ChipOpenedValues E)
    (qc_domains : List Dom) (zeta : E) : E :=
  let zps := qc_domains.enum.map fun p =>
    ((qc_domains.enum.filter fun q => q.1 ≠ p.1).map fun q =>
      dops.zp_at_point q.2 zeta *
        P.einv (dops.zp_at_point q.2 (dops.first_point p.2))).prod
  (opening.quotient.enum.map fun pch =>
    (pch.2.enum.map fun pc =>
      zps.getD pch.1 0 * P.monomial pc.1 * pc.2).sum).sum

/-- verifier.rs lines 331-366 (`recompute_quotient`), with both panics in
the chunk loop modelled as `none`: the
`assert_eq!(ch.len(), SC::Challenge::D)` when any chunk has the wrong
arity, and the `zps[ch_i]` Vec index when a chunk index reaches past
`qc_domains` (`zps` has one entry per chunk domain).  With every chunk of
length `D`, the index is touched for each chunk exactly when chunks are
non-empty, i.e. when `D ≠ 0` — so the computation survives iff every chunk
has length `D` and (`D = 0` or there are no more chunks than chunk
domains). -/
def recompute_quotient {E Dom : Type} [CommRing E] (P : ExtParams E)
    (dops : DomOps E Dom) (opening : ChipOpenedValues E)
    (qc_domains : List Dom) (zeta : E) : Option E :=
  if (opening.quotient.all fun ch => ch.length = P.D) ∧
      (P.D = 0 ∨ opening.quotient.length ≤ qc_domains.length) then
    some (recompute_quotient_val P dops opening qc_domains zeta)
  else none

/-- verifier.rs lines 248-282 (`verify_constraints`): selectors at ζ,
recompute the quotient from the chunks, fold the constraints, compare
`folded * inv_zeroifier` with the quotient. -/
def verify_constraints {F E Dom : Type} [CommRing E] [DecidableEq E]
    (P : ExtParams E) (dops : DomOps E Dom) (chip : MachineChip F E)
    (opening : ChipOpenedValues E) (trace_domain : Dom) (qc_domains : List Dom)
    (zeta : E) (alpha : E) (permutation_challenges : List E)
    (public_values : List F) : Option (Except OodEvaluationMismatch Unit) :=
  let sels := dops.selectors_at_point trace_domain zeta
  match recompute_quotient P dops opening qc_domains zeta with
  | none => none
  | some quotient =>
    let folded_constraints :=
      eval_constraints P chip opening sels alpha permutation_challenges public_values
    some (if folded_constraints * sels.inv_zeroifier = quotient then Except.ok ()
      else Except.error OodEvaluationMismatch.mk)

/-- verifier.rs lines 58-61: `trace_domains` from each opening's
`log_degree`. -/
def traceDomains {E Com Dom OErr PProof : Type}
    (pcs : Pcs E Com Dom OErr PProof) (opened : List (ChipOpenedValues E)) :
    List Dom :=
  opened.map fun v => pcs.natural_domain_for_degree (2 ^ v.log_degree)

/-- verifier.rs lines 118-128: per chip, split a disjoint domain of size
`2^(log_degree + log_quotient_degree)` into `2^log_quotient_degree`
quotient-chunk domains. -/
def quotientChunkDomains {F E Com Dom OErr PProof : Type}
    (dops : DomOps E Dom) (pcs : Pcs E Com Dom OErr PProof)
    (chips : List (MachineChip F E)) (opened : List (ChipOpenedValues E)) :
    List (List Dom) :=
  ((traceDomains pcs opened).zip ((opened.map fun v => v.log_degree).zip
    (chips.map fun c => c.log_quotient_degree))).map fun p =>
    dops.split_domains (dops.create_disjoint_domain p.1 (2 ^ (p.2.1 + p.2.2)))
      (2 ^ p.2.2)

/-- `itertools::zip_eq`: `none` models its length-mismatch panic. -/
def zipEq {α β : Type} (a : List α) (b : List β) : Option (List (α × β)) :=
  if a.length = b.length then some (a.zip b) else none

/-- The iteration list of verifier.rs lines 159-161 (`izip!`). -/
def zip4 {α β γ δ : Type} (a : List α) (b : List β) (c : List γ) (d : List δ) :
    List (α × β × γ × δ) :=
  a.zip (b.zip (c.zip d))

/-- verifier.rs lines 159-177: the per-chip loop — shape check, then
constraint check; the first failure is mapped to `OpeningShapeError` /
`OodEvaluationMismatch` with the chip's name.  Returns the challenger on
success (the source returns `Ok(())` with the challenger threaded by
reference). -/
def chipLoop {F E Com Dom OErr : Type} [CommRing E] [DecidableEq E]
    (P : ExtParams E) (dops : DomOps E Dom) (zeta alpha : E)
    (permutation_challenges : List E) (public_values : List F) :
    List (MachineChip F E × Dom × List Dom × ChipOpenedValues E) →
    Challenger E Com → Option (Except (VerificationError OErr) (Challenger E Com))
  | [], ch => some (Except.ok ch)
  | (chip, trace_domain, qc_domains, values) :: rest, ch =>
    match verify_opening_shape P chip values with
    | Except.error e =>
      some (Except.error (VerificationError.OpeningShapeError chip.name e))
    | Except.ok _ =>
      match verify_constraints P dops chip values trace_domain qc_domains zeta
          alpha permutation_challenges public_values with
      | none => none
      | some (Except.error _) =>
        some (Except.error (VerificationError.OodEvaluationMismatch chip.name))
      | some (Except.ok _) =>
        chipLoop P dops zeta alpha permutation_challenges public_values rest ch

/-- verifier.rs lines 26-180 (`verify_shard`).  `none` is a panic: an
out-of-range `chip_ordering` index in the preprocessed batch, the
`zip_eq` on a chip's quotient chunks versus its chunk domains, or the
`assert_eq!` inside `recompute_quotient`.  All other deviations are the
source's `Err(...)` values.  The four batches are assembled exactly as in
lines 77-142 and handed to `pcs.verify`. -/
def verify_shard {F E Com Dom OErr PProof : Type} [CommRing E] [DecidableEq E]
    (P : ExtParams E) (dops : DomOps E Dom) (pcs : Pcs E Com Dom OErr PProof)
    (vk : StarkVerifyingKey F Com Dom) (chips : List (MachineChip F E))
    (challenger : Challenger E Com) (proof : ShardProof F E Com PProof) :
    Option (Except (VerificationError OErr) (Challenger E Com)) :=
  if chips.length ≠ proof.opened_values.chips.length then
    some (Except.error VerificationError.ChipOpeningLengthMismatch)
  else
    let trace_domains := traceDomains pcs proof.opened_values.chips
    let s1 := challenger.sample_ext_element
    let s2 := s1.2.sample_ext_element
    let permutation_challenges := [s1.1, s2.1]
    let ch3 := s2.2.observe proof.commitment.permutation_commit
    let s4 := ch3.sample_ext_element
    let alpha := s4.1
    let ch5 := s4.2.observe proof.commitment.quotient_commit
    let s6 := ch5.sample_ext_element
    let zeta := s6.1
    let preprocessedOpt := vk.chip_information.mapM fun nd =>
      (proof.opened_values.chips.get? (proof.chip_ordering nd.1)).map fun values =>
        (nd.2, [(zeta, values.preprocessed.local'),
          (dops.next_point nd.2 zeta, values.preprocessed.next)])
    let main_dpo := (trace_domains.zip proof.opened_values.chips).map fun p =>
      (p.1, [(zeta, p.2.main.local'), (dops.next_point p.1 zeta, p.2.main.next)])
    let perm_dpo := (trace_domains.zip proof.opened_values.chips).map fun p =>
      (p.1, [(zeta, p.2.permutation.local'),
        (dops.next_point p.1 zeta, p.2.permutation.next)])
    let quotient_chunk_domains := quotientChunkDomains dops pcs chips proof.opened_values.chips
    let quotientOpt := (proof.opened_values.chips.zip quotient_chunk_domains).mapM fun p =>
      (zipEq p.1.quotient p.2).map fun l =>
        l.map fun vq => (vq.2, [(zeta, vq.1)])
    match preprocessedOpt, quotientOpt with
    | some preprocessed_dpo, some quotient_dpo =>
      (match pcs.verify
          [(vk.commit, preprocessed_dpo),
            (proof.commitment.main_commit, main_dpo),
            (proof.commitment.permutation_commit, perm_dpo),
            (proof.commitment.quotient_commit, quotient_dpo.flatten)]
          proof.opening_proof s6.2 with
      | Except.error e =>
        some (Except.error (VerificationError.InvalidopeningArgument e))
      | Except.ok ch7 =>
        chipLoop P dops zeta alpha permutation_challenges proof.public_values
          (zip4 chips trace_domains quotient_chunk_domains proof.opened_values.chips) ch7)
    | _, _ => none

/-- A PCS whose `verify` rejects, carrying the challenger it was handed as
the error value: used to observe the transcript state at the PCS call. -/
def capturePcs (E Com Dom PProof : Type) (nd : Nat → Dom) :
    Pcs E Com Dom (Challenger E Com) PProof :=
  { natural_domain_for_degree := nd
    verify := fun _ _ ch => Except.error ch }

/-- A PCS whose `verify` accepts and returns the challenger unchanged. -/
def acceptPcs (E Com Dom OErr PProof : Type) (nd : Nat → Dom) :
    Pcs E Com Dom OErr PProof :=
  { natural_domain_for_degree := nd
    verify := fun _ _ ch => Except.ok ch }

/-- The §4.F formula exactly as the claim states it, indices over
`range`: `Σᵢ zpsᵢ · Σ_{e<D} monomial(e) · q[i][e]` with
`zpsᵢ = Π_{j≠i} zp_{qc[j]}(ζ) · zp_{qc[j]}(first(qc[i]))⁻¹`.  (`d` is a
junk default for out-of-range domain indexing, never reached when
`k = qc_domains.length`.) -/
def recompute_quotient_spec {E Dom : Type} [CommRing E] (P : ExtParams E)
    (dops : DomOps E Dom) (d : Dom) (opening : ChipOpenedValues E)
    (qc_domains : List Dom) (zeta : E) : E :=
  let k := qc_domains.length
  (((List.range k).map fun i =>
    (((List.range k).filter fun j => j ≠ i).map fun j =>
      dops.zp_at_point (qc_domains.getD j d) zeta *
        P.einv (dops.zp_at_point (qc_domains.getD j d)
          (dops.first_point (qc_domains.getD i d)))).prod *
    ((List.range P.D).map fun e =>
      P.monomial e * (opening.quotient.getD i []).getD e 0).sum)).sum

/-! # Theorems -/

/-! ## C9: memory initialize/finalize event construction -/

/-- C9: `MemoryInitializeFinalizeEvent::initialize(addr, value, used)`
produces `{addr, value, shard: 1, timestamp: 1, used: if used then 1 else
0}` — shard and timestamp are 1 regardless of the arguments — and
`finalize_from_record(addr, record)` produces `{addr, record.value,
record.shard, record.clk, used: 1}`. -/
theorem memory_event_construction :
    (∀ (addr value : Nat) (used : Bool),
      MemoryInitializeFinalizeEvent.initialize' addr value used =
        { addr := addr, value := value, shard := 1, timestamp := 1,
          used := if used then 1 else 0 }) ∧
    (∀ (addr : Nat) (record : MemoryRecord),
      MemoryInitializeFinalizeEvent.finalize_from_record addr record =
        { addr := addr, value := record.value, shard := record.shard,
          timestamp := record.clk, used := 1 }) :=
  ⟨fun _ _ _ => rfl, fun _ _ => rfl⟩

/-! ## C10: io::read and io::commit never return -/

/-- C10: for every hint-stream environment, `io::read` consumes the hint
(`syscall_hint_len`, a 4-byte-aligned allocation of capacity `len` rounded
up to a multiple of 4, `syscall_hint_read`), prints the bytes, and panics
at `unimplemented!()` before any deserialization; `io::commit` panics
before emitting a single byte to `FD_PUBLIC_VALUES`.  Neither returns
normally. -/
theorem io_read_commit_never_return :
    (∀ env : IoEnv,
      io_read env =
        ([IoEvent.hintLen, IoEvent.alloc ((env.hintLenVal + 3) / 4 * 4) 4,
          IoEvent.hintRead env.hintLenVal,
          IoEvent.printVec (env.hintData.take env.hintLenVal)],
          PanicOr.panicked)) ∧
    io_commit = ([], PanicOr.panicked) :=
  ⟨fun _ => rfl, rfl⟩

/-! ## C6: the opening-shape validator -/

/-- C6: `verify_opening_shape` returns `Ok(())` iff every opened matrix has
the width the chip declares (preprocessed local/next, main local/next,
permutation local/next at `permutation_width * D`, `quotient_width` chunks,
each chunk of length `D`); the first violated check, in source order,
determines the error kind and its `(expected, actual)` payload — in
particular `width()=7` with `main.local.len()=6` yields
`MainWidthMismatch(7,6)` and `D=4` with a 3-element chunk yields
`QuotientChunkSizeMismatch(4,3)`. -/
theorem verify_opening_shape_characterization {F E : Type} (P : ExtParams E)
    (chip : MachineChip F E) (o : ChipOpenedValues E) :
    (verify_opening_shape P chip o = Except.ok () ↔
      (o.preprocessed.local'.length = chip.preprocessed_width ∧
        o.preprocessed.next.length = chip.preprocessed_width ∧
        o.main.local'.length = chip.width ∧
        o.main.next.length = chip.width ∧
        o.permutation.local'.length = chip.permutation_width * P.D ∧
        o.permutation.next.length = chip.permutation_width * P.D ∧
        o.quotient.length = chip.quotient_width ∧
        ∀ ch ∈ o.quotient, ch.length = P.D)) ∧
    (o.preprocessed.local'.length ≠ chip.preprocessed_width →
      verify_opening_shape P chip o = Except.error
        (OpeningShapeError.PreprocessedWidthMismatch chip.preprocessed_width
          o.preprocessed.local'.length)) ∧
    (o.preprocessed.local'.length = chip.preprocessed_width →
      o.preprocessed.next.length ≠ chip.preprocessed_width →
      verify_opening_shape P chip o = Except.error
        (OpeningShapeError.PreprocessedWidthMismatch chip.preprocessed_width
          o.preprocessed.next.length)) ∧
    (o.preprocessed.local'.length = chip.preprocessed_width →
      o.preprocessed.next.length = chip.preprocessed_width →
      o.main.local'.length ≠ chip.width →
      verify_opening_shape P chip o = Except.error
        (OpeningShapeError.MainWidthMismatch chip.width o.main.local'.length)) ∧
    (o.preprocessed.local'.length = chip.preprocessed_width →
      o.preprocessed.next.length = chip.preprocessed_width →
      o.main.local'.length = chip.width →
      o.main.next.length ≠ chip.width →
      verify_opening_shape P chip o = Except.error
        (OpeningShapeError.MainWidthMismatch chip.width o.main.next.length)) ∧
    (o.preprocessed.local'.length = chip.preprocessed_width →
      o.preprocessed.next.length = chip.preprocessed_width →
      o.main.local'.length = chip.width →
      o.main.next.length = chip.width →
      o.permutation.local'.length ≠ chip.permutation_width * P.D →
      verify_opening_shape P chip o = Except.error
        (OpeningShapeError.PermutationWidthMismatch chip.permutation_width
          o.permutation.local'.length)) ∧
    (o.preprocessed.local'.length = chip.preprocessed_width →
      o.preprocessed.next.length = chip.preprocessed_width →
      o.main.local'.length = chip.width →
      o.main.next.length = chip.width →
      o.permutation.local'.length = chip.permutation_width * P.D →
      o.permutation.next.length ≠ chip.permutation_width * P.D →
      verify_opening_shape P chip o = Except.error
        (OpeningShapeError.PermutationWidthMismatch chip.permutation_width
          o.permutation.next.length)) ∧
    (o.preprocessed.local'.length = chip.preprocessed_width →
      o.preprocessed.next.length = chip.preprocessed_width →
      o.main.local'.length = chip.width →
      o.main.next.length = chip.width →
      o.permutation.local'.length = chip.permutation_width * P.D →
      o.permutation.next.length = chip.permutation_width * P.D →
      o.quotient.length ≠ chip.quotient_width →
      verify_opening_shape P chip o = Except.error
        (OpeningShapeError.QuotientWidthMismatch chip.quotient_width
          o.quotient.length)) ∧
    (∀ bad : List E,
      o.preprocessed.local'.length = chip.preprocessed_width →
      o.preprocessed.next.length = chip.preprocessed_width →
      o.main.local'.length = chip.width →
      o.main.next.length = chip.width →
      o.permutation.local'.length = chip.permutation_width * P.D →
      o.permutation.next.length = chip.permutation_width * P.D →
      o.quotient.length = chip.quotient_width →
      o.quotient.find? (fun slice => slice.length ≠ P.D) = some bad →
      verify_opening_shape P chip o = Except.error
        (OpeningShapeError.QuotientChunkSizeMismatch P.D bad.length)) := by
  refine ⟨?_, ?_, ?_, ?_, ?_, ?_, ?_, ?_, ?_⟩
  · simp only [verify_opening_shape]
    split_ifs with h1 h2 h3 h4 h5 h6 h7
    · simp [h1]
    · simp [h2]
    · simp [h3]
    · simp [h4]
    · simp [h5]
    · simp [h6]
    · simp [h7]
    · cases hfind : o.quotient.find? (fun slice => slice.length ≠ P.D) with
      | none =>
        have hall := List.find?_eq_none.mp hfind
        simp only [not_not] at h1 h2 h3 h4 h5 h6 h7
        simp [h1, h2, h3, h4, h5, h6, h7]
        intro ch hc
        have := hall ch hc
        simpa using this
      | some bad =>
        have hmem := List.find?_some hfind
        simp only [decide_not, Bool.not_eq_true', decide_eq_false_iff_not] at hmem
        have hbad := List.mem_of_find?_eq_some hfind
        constructor
        · intro h
          exact absurd h (by simp)
        · intro h
          exact absurd (h.2.2.2.2.2.2.2 bad hbad) hmem
  · intro h
    simp [verify_opening_shape, h]
  · intro h1 h2
    simp [verify_opening_shape, h1, h2]
  · intro h1 h2 h3
    simp [verify_opening_shape, h1, h2, h3]
  · intro h1 h2 h3 h4
    simp [verify_opening_shape, h1, h2, h3, h4]
  · intro h1 h2 h3 h4 h5
    simp [verify_opening_shape, h1, h2, h3, h4, h5]
  · intro h1 h2 h3 h4 h5 h6
    simp [verify_opening_shape, h1, h2, h3, h4, h5, h6]
  · intro h1 h2 h3 h4 h5 h6 h7
    simp [verify_opening_shape, h1, h2, h3, h4, h5, h6, h7]
  · intro bad h1 h2 h3 h4 h5 h6 h7 hfind
    simp only [decide_not] at hfind
    simp [verify_opening_shape, h1, h2, h3, h4, h5, h6, h7, hfind]

/-! ## C8: witness binding read/write symmetry -/

theorem roundtrips_felt (F E : Type) : Roundtrips (feltComp F E) := by
  intro a s
  rfl

theorem roundtrips_bool (F E : Type) (from_bool : Bool → F) :
    Roundtrips (boolComp F E from_bool) := by
  intro a s
  rfl

theorem read_bind_round {F E α β γ : Type} {c : WitComp F E α β}
    (h : Roundtrips c) (a : α) (s : List (WElem F E))
    (k : β × List (WElem F E) → Option γ) :
    (c.read a (c.write a ++ s)).bind k = k (c.var a, s) := by
  rw [h]
  rfl

theorem read_map_round {F E α β γ : Type} {c : WitComp F E α β}
    (h : Roundtrips c) (a : α) (s : List (WElem F E))
    (k : β × List (WElem F E) → γ) :
    (c.read a (c.write a ++ s)).map k = some (k (c.var a, s)) := by
  rw [h]
  rfl

theorem roundtrips_list {F E α β : Type} {c : WitComp F E α β}
    (h : Roundtrips c) : Roundtrips (listComp c) := by
  intro l
  induction l with
  | nil => intro s; rfl
  | cons a l ih =>
    intro s
    show readListAux c.read (a :: l) ((((a :: l).map c.write).flatten) ++ s) =
      some ((a :: l).map c.var, s)
    simp only [List.map_cons, List.flatten_cons, List.append_assoc, readListAux]
    rw [read_bind_round h]
    have := ih s
    simp only [listComp] at this
    rw [this]
    rfl

theorem roundtrips_pair {F E α β γ δ : Type} {c1 : WitComp F E α β}
    {c2 : WitComp F E γ δ} (h1 : Roundtrips c1) (h2 : Roundtrips c2) :
    Roundtrips (pairComp c1 c2) := by
  intro a s
  simp only [pairComp, List.append_assoc]
  rw [read_bind_round h1]
  rw [read_map_round h2]

theorem roundtrips_word_aux {F E α β : Type} {c : WitComp F E α β}
    (h : Roundtrips c) : Roundtrips (wordComp c) := by
  intro a s
  simp only [wordComp]
  rw [read_map_round (roundtrips_list h)]

theorem roundtrips_hash_aux {F E α β : Type} {c : WitComp F E α β}
    (h : Roundtrips c) : Roundtrips (hashComp c) := by
  intro a s
  exact roundtrips_list h a s

theorem roundtrips_duplex_aux (F E : Type) : Roundtrips (duplexComp F E) := by
  intro a s
  simp only [duplexComp, List.append_assoc]
  rw [read_bind_round (roundtrips_list (roundtrips_felt F E))]
  rw [read_bind_round (roundtrips_list (roundtrips_felt F E))]
  rw [read_map_round (roundtrips_list (roundtrips_felt F E))]
  have hv : ∀ l : List F, (listComp (feltComp F E)).var l = l := by
    intro l
    simp [listComp, feltComp]
  simp [hv]

theorem roundtrips_vk_aux (F E MI MO : Type) : Roundtrips (vkComp F E MI MO) := by
  intro a s
  simp only [vkComp, List.append_assoc]
  rw [read_bind_round (roundtrips_hash_aux (roundtrips_felt F E))]
  rw [read_map_round (roundtrips_felt F E)]
  rfl

theorem roundtrips_recursion_aux {F E MI MO P PV : Type} (from_bool : Bool → F)
    (cp : WitComp F E P PV) (hp : Roundtrips cp) :
    Roundtrips (@recursionComp F E MI MO P PV from_bool cp) := by
  intro a s
  simp only [recursionComp, List.append_assoc]
  rw [read_bind_round (roundtrips_vk_aux F E MI MO)]
  rw [read_bind_round (roundtrips_list hp)]
  rw [read_bind_round (roundtrips_duplex_aux F E)]
  rw [read_bind_round (roundtrips_duplex_aux F E)]
  rw [read_map_round (roundtrips_bool F E from_bool)]
  rfl

theorem roundtrips_compress_aux {F E MI MO P PV : Type} (from_bool : Bool → F)
    (cp : WitComp F E P PV) (hp : Roundtrips cp) :
    Roundtrips (@compressComp F E MI MO P PV from_bool cp) := by
  intro a s
  simp only [compressComp, List.append_assoc]
  rw [read_bind_round (roundtrips_list (roundtrips_pair (roundtrips_vk_aux F E MI MO) hp))]
  rw [read_map_round (roundtrips_bool F E from_bool)]
  rfl

theorem roundtrips_deferred_aux {F E MI MO P PV : Type} (from_bool : Bool → F)
    (cp : WitComp F E P PV) (hp : Roundtrips cp) :
    Roundtrips (@deferredComp F E MI MO P PV from_bool cp) := by
  intro a s
  simp only [deferredComp, List.append_assoc]
  rw [read_bind_round (roundtrips_list (roundtrips_pair (roundtrips_vk_aux F E MI MO) hp))]
  rw [read_bind_round (roundtrips_list (roundtrips_felt F E))]
  rw [read_bind_round (roundtrips_vk_aux F E MI MO)]
  rw [read_bind_round (roundtrips_duplex_aux F E)]
  rw [read_bind_round (roundtrips_list (roundtrips_word_aux (roundtrips_felt F E)))]
  rw [read_bind_round (roundtrips_list (roundtrips_felt F E))]
  rw [read_bind_round (roundtrips_felt F E)]
  rw [read_bind_round (roundtrips_felt F E)]
  rw [read_bind_round (roundtrips_felt F E)]
  rw [read_bind_round (roundtrips_list (roundtrips_felt F E))]
  rw [read_bind_round (roundtrips_list (roundtrips_felt F E))]
  rw [read_map_round (roundtrips_bool F E from_bool)]
  rfl

/-- C8: for each `Witnessable` implementation of the witness layer — `Word`,
`DuplexChallenger`, `Hash`, `StarkVerifyingKey`,
`SP1RecursionWitnessValues`, `SP1CompressWitnessValues`,
`SP1DeferredWitnessValues` — `read` and `write` traverse exactly the same
fields in the same order (with `is_complete` booleans coerced through
`from_bool` before reading), so writing a value to a fresh witness stream
and reading it back consumes exactly the written primitives, in order, and
reconstructs the value's variable.  The composite statements are generic
over the constituent components' own round-trip property, as the source
impls are generic over the constituents' `Witnessable`. -/
theorem witness_read_write_symmetry :
    (∀ (F E α β : Type) (c : WitComp F E α β), Roundtrips c →
      Roundtrips (wordComp c)) ∧
    (∀ F E : Type, Roundtrips (duplexComp F E)) ∧
    (∀ (F E α β : Type) (c : WitComp F E α β), Roundtrips c →
      Roundtrips (hashComp c)) ∧
    (∀ F E MI MO : Type, Roundtrips (vkComp F E MI MO)) ∧
    (∀ (F E MI MO P PV : Type) (from_bool : Bool → F) (cp : WitComp F E P PV),
      Roundtrips cp → Roundtrips (@recursionComp F E MI MO P PV from_bool cp)) ∧
    (∀ (F E MI MO P PV : Type) (from_bool : Bool → F) (cp : WitComp F E P PV),
      Roundtrips cp → Roundtrips (@compressComp F E MI MO P PV from_bool cp)) ∧
    (∀ (F E MI MO P PV : Type) (from_bool : Bool → F) (cp : WitComp F E P PV),
      Roundtrips cp → Roundtrips (@deferredComp F E MI MO P PV from_bool cp)) :=
  ⟨fun _ _ _ _ _ h => roundtrips_word_aux h,
    fun F E => roundtrips_duplex_aux F E,
    fun _ _ _ _ _ h => roundtrips_hash_aux h,
    fun F E MI MO => roundtrips_vk_aux F E MI MO,
    fun _ _ _ _ _ _ fb cp h => roundtrips_recursion_aux fb cp h,
    fun _ _ _ _ _ _ fb cp h => roundtrips_compress_aux fb cp h,
    fun _ _ _ _ _ _ fb cp h => roundtrips_deferred_aux fb cp h⟩

/-! ## C5: quotient recombination -/

theorem enumFrom_eq_range_map {α : Type} (d : α) (l : List α) :
    ∀ n : Nat, List.enumFrom n l =
      (List.range l.length).map (fun j => (n + j, l.getD j d)) := by
  induction l with
  | nil => intro n; rfl
  | cons a t ih =>
    intro n
    simp only [List.enumFrom, List.length_cons, List.range_succ_eq_map,
      List.map_cons, List.map_map]
    refine List.cons_eq_cons.mpr ⟨by simp, ?_⟩
    rw [ih (n + 1)]
    apply List.map_congr_left
    intro j _
    simp only [Function.comp, Nat.succ_eq_add_one, List.getD_cons_succ]
    have hn : n + 1 + j = n + (j + 1) := by omega
    rw [hn]

theorem enum_eq_range_map {α : Type} (d : α) (l : List α) :
    l.enum = (List.range l.length).map (fun j => (j, l.getD j d)) := by
  have h := enumFrom_eq_range_map d l 0
  simpa [List.enum] using h

theorem getD_range_map {β : Type} (g : Nat → β) (k i : Nat) (d : β)
    (h : i < k) : ((List.range k).map g).getD i d = g i := by
  rw [List.getD_eq_getElem?_getD, List.getElem?_map, List.getElem?_range h]
  rfl

theorem getD_mem {α : Type} {l : List α} {i : Nat} (h : i < l.length) (d : α) :
    l.getD i d ∈ l := by
  rw [List.getD_eq_getElem?_getD, List.getElem?_eq_getElem h]
  exact List.getElem_mem _

/-- C5: with `k` quotient chunks of length `D` matching the `k`
quotient-chunk domains, and each inverted vanishing value non-zero
(disjoint domains), `recompute_quotient` computes exactly
`Σᵢ zpsᵢ · Σ_{e<D} monomial(e) · q[i][e]` with
`zpsᵢ = Π_{j≠i} zp_{qc[j]}(ζ) · zp_{qc[j]}(first(qc[i]))⁻¹`. -/
theorem recompute_quotient_matches_spec {E Dom : Type} [CommRing E]
    (P : ExtParams E) (dops : DomOps E Dom) (d : Dom)
    (opening : ChipOpenedValues E) (qc_domains : List Dom) (zeta : E)
    (hq : opening.quotient.length = qc_domains.length)
    (hD : ∀ ch ∈ opening.quotient, ch.length = P.D)
    (hnz : ∀ i < qc_domains.length, ∀ j < qc_domains.length, j ≠ i →
      dops.zp_at_point (qc_domains.getD j d)
        (dops.first_point (qc_domains.getD i d)) ≠ 0) :
    recompute_quotient P dops opening qc_domains zeta =
      some (recompute_quotient_spec P dops d opening qc_domains zeta) := by
  have hall : (opening.quotient.all fun ch => decide (ch.length = P.D)) = true := by
    rw [List.all_eq_true]
    intro ch hch
    exact decide_eq_true (hD ch hch)
  rw [recompute_quotient, if_pos ⟨hall, Or.inr (le_of_eq hq)⟩]
  congr 1
  simp only [recompute_quotient_val, recompute_quotient_spec]
  rw [enum_eq_range_map ([] : List E) opening.quotient, List.map_map, hq]
  apply congrArg
  apply List.map_congr_left
  intro i hi
  have hik : i < qc_domains.length := List.mem_range.mp hi
  have hilen : i < opening.quotient.length := hq ▸ hik
  have hch : (opening.quotient.getD i []).length = P.D :=
    hD _ (getD_mem hilen [])
  have hzps : (((qc_domains.enum.map fun p =>
      ((qc_domains.enum.filter fun q => q.1 ≠ p.1).map fun q =>
        dops.zp_at_point q.2 zeta *
          P.einv (dops.zp_at_point q.2 (dops.first_point p.2))).prod)).getD i 0) =
      (((List.range qc_domains.length).filter fun j => j ≠ i).map fun j =>
        dops.zp_at_point (qc_domains.getD j d) zeta *
          P.einv (dops.zp_at_point (qc_domains.getD j d)
            (dops.first_point (qc_domains.getD i d)))).prod := by
    rw [enum_eq_range_map d qc_domains, List.map_map,
      getD_range_map _ _ _ _ hik]
    simp only [Function.comp]
    rw [List.filter_map]
    have hfil : List.filter ((fun q : Nat × Dom => decide (q.1 ≠ i)) ∘
        fun j => (j, qc_domains.getD j d)) (List.range qc_domains.length) =
        List.filter (fun j => decide (j ≠ i)) (List.range qc_domains.length) :=
      List.filter_congr (fun x _ => rfl)
    rw [hfil, List.map_map]
    apply congrArg
    apply List.map_congr_left
    intro j _
    rfl
  simp only [Function.comp]
  rw [enum_eq_range_map (0 : E) (opening.quotient.getD i []), List.map_map, hch]
  rw [← List.sum_map_mul_left]
  apply congrArg
  apply List.map_congr_left
  intro e _
  simp only [Function.comp]
  rw [mul_assoc]
  rw [hzps]

theorem recompute_quotient_matches_spec_witness :
    recompute_quotient
      (⟨1, fun _ => (1 : Int), fun x => x⟩ : ExtParams Int)
      (⟨fun _ z => z, fun _ p => p + 1, fun _ => 0, fun _ _ => ⟨0, 0, 0, 1⟩,
        fun _ _ => (), fun _ n => List.replicate n ()⟩ : DomOps Int Unit)
      (⟨⟨[], []⟩, ⟨[], []⟩, ⟨[], []⟩, [[2], [3]], 0, 0⟩ : ChipOpenedValues Int)
      [(), ()] 1 =
      some (recompute_quotient_spec
        (⟨1, fun _ => (1 : Int), fun x => x⟩ : ExtParams Int)
        (⟨fun _ z => z, fun _ p => p + 1, fun _ => 0, fun _ _ => ⟨0, 0, 0, 1⟩,
          fun _ _ => (), fun _ n => List.replicate n ()⟩ : DomOps Int Unit)
        ()
        (⟨⟨[], []⟩, ⟨[], []⟩, ⟨[], []⟩, [[2], [3]], 0, 0⟩ : ChipOpenedValues Int)
        [(), ()] 1) :=
  recompute_quotient_matches_spec _ _ () _ [(), ()] 1 (by decide) (by decide)
    (by decide)

/-! ## Shared verify_shard unfolding machinery -/

theorem mapM_option_ne_none {α β : Type} (f : α → Option β) :
    ∀ l : List α, (∀ a ∈ l, f a ≠ none) → l.mapM f ≠ none := by
  intro l
  induction l with
  | nil =>
    intro _
    rw [List.mapM_nil]
    simp
  | cons a t ih =>
    intro h
    rw [List.mapM_cons]
    cases hfa : f a with
    | none => exact absurd hfa (h a (by simp))
    | some b =>
      cases hmt : t.mapM f with
      | none => exact absurd hmt (ih fun x hx => h x (by simp [hx]))
      | some ys => simp [hfa, hmt]

/-! ## C3: challenger interaction order -/

/-- C3: before the PCS call, `verify_shard` interacts with the challenger
exactly as: sample, sample (the two permutation challenges), observe
`permutation_commit`, sample (α), observe `quotient_commit`, sample (ζ) —
and nothing else; in particular `main_commit` is never observed (its
observation is assumed to predate entry).  The PCS here is instantiated to
reject, carrying the challenger it receives, so the conclusion reads off
the exact transcript state at the PCS call; the path to the PCS is the same
for every PCS. -/
theorem verify_shard_transcript_order {F E Com Dom PProof : Type}
    [CommRing E] [DecidableEq E]
    (P : ExtParams E) (dops : DomOps E Dom) (nd : Nat → Dom)
    (vk : StarkVerifyingKey F Com Dom) (chips : List (MachineChip F E))
    (challenger : Challenger E Com) (proof : ShardProof F E Com PProof)
    (hlen : chips.length = proof.opened_values.chips.length)
    (hidx : ∀ x ∈ vk.chip_information,
      proof.chip_ordering x.1 < proof.opened_values.chips.length)
    (hquot : ∀ p ∈ proof.opened_values.chips.zip
      (quotientChunkDomains dops (capturePcs E Com Dom PProof nd) chips
        proof.opened_values.chips),
      p.1.quotient.length = p.2.length)
    (hmp : proof.commitment.main_commit ≠ proof.commitment.permutation_commit)
    (hmq : proof.commitment.main_commit ≠ proof.commitment.quotient_commit) :
    verify_shard P dops (capturePcs E Com Dom PProof nd) vk chips challenger proof =
      some (Except.error (VerificationError.InvalidopeningArgument
        (Challenger.mk challenger.sampleFn (challenger.count + 4)
          (challenger.events ++ [ChalEvent.sample, ChalEvent.sample,
            ChalEvent.observe proof.commitment.permutation_commit, ChalEvent.sample,
            ChalEvent.observe proof.commitment.quotient_commit, ChalEvent.sample])))) ∧
    ChalEvent.observe proof.commitment.main_commit ∉
      [ChalEvent.sample, ChalEvent.sample,
        ChalEvent.observe proof.commitment.permutation_commit, ChalEvent.sample,
        ChalEvent.observe proof.commitment.quotient_commit, ChalEvent.sample] := by
  constructor
  · unfold verify_shard
    rw [if_neg (fun hne => hne hlen)]
    simp only [Challenger.sample_ext_element, Challenger.observe]
    split
    next pre' quo' hpre hquo =>
      simp only [capturePcs]
      simp [List.append_assoc]
    next hno =>
      exfalso
      have h1 : (vk.chip_information.mapM fun nd' =>
          Option.map (fun values =>
            (nd'.2,
              [(challenger.sampleFn (challenger.count + 1 + 1 + 1), values.preprocessed.local'),
                (dops.next_point nd'.2 (challenger.sampleFn (challenger.count + 1 + 1 + 1)),
                  values.preprocessed.next)]))
            (proof.opened_values.chips.get? (proof.chip_ordering nd'.1))) ≠ none := by
        apply mapM_option_ne_none
        intro x hx
        obtain ⟨v, hv⟩ : ∃ v,
            proof.opened_values.chips.get? (proof.chip_ordering x.1) = some v := by
          rw [List.get?_eq_getElem?]
          exact ⟨_, List.getElem?_eq_getElem (hidx x hx)⟩
        rw [hv]
        simp
      have h2 : ((proof.opened_values.chips.zip
          (quotientChunkDomains dops (capturePcs E Com Dom PProof nd) chips
            proof.opened_values.chips)).mapM fun p =>
          Option.map (fun l => List.map (fun vq =>
            (vq.2, [(challenger.sampleFn (challenger.count + 1 + 1 + 1), vq.1)])) l)
            (zipEq p.1.quotient p.2)) ≠ none := by
        apply mapM_option_ne_none
        intro p hp
        have hz := hquot p hp
        rw [zipEq, if_pos hz]
        simp
      obtain ⟨pre', hpre⟩ := Option.ne_none_iff_exists'.mp h1
      obtain ⟨quo', hquo⟩ := Option.ne_none_iff_exists'.mp h2
      exact hno pre' quo' hpre hquo
  · simp [hmp, hmq]

theorem verify_shard_transcript_order_witness :
    verify_shard (⟨1, fun _ => (1 : Int), fun x => x⟩ : ExtParams Int)
      (⟨fun _ z => z, fun _ p => p + 1, fun _ => 0, fun _ _ => ⟨0, 0, 0, 1⟩,
        fun _ _ => (), fun _ n => List.replicate n ()⟩ : DomOps Int Unit)
      (capturePcs Int Nat Unit Unit (fun _ => ()))
      (⟨9, 0, [], fun _ => 0⟩ : StarkVerifyingKey Int Nat Unit)
      []
      (⟨fun _ => 0, 0, []⟩ : Challenger Int Nat)
      (⟨⟨0, 1, 2⟩, ⟨[]⟩, (), fun _ => 0, []⟩ : ShardProof Int Int Nat Unit) =
      some (Except.error (VerificationError.InvalidopeningArgument
        (Challenger.mk (fun _ => (0 : Int)) 4
          [ChalEvent.sample, ChalEvent.sample, ChalEvent.observe 1,
            ChalEvent.sample, ChalEvent.observe 2, ChalEvent.sample]))) ∧
    ChalEvent.observe (0 : Nat) ∉
      [ChalEvent.sample, ChalEvent.sample, ChalEvent.observe (1 : Nat),
        ChalEvent.sample, ChalEvent.observe (2 : Nat), ChalEvent.sample] := by
  have h := verify_shard_transcript_order
    (⟨1, fun _ => (1 : Int), fun x => x⟩ : ExtParams Int)
    (⟨fun _ z => z, fun _ p => p + 1, fun _ => 0, fun _ _ => ⟨0, 0, 0, 1⟩,
      fun _ _ => (), fun _ n => List.replicate n ()⟩ : DomOps Int Unit)
    (fun _ => ())
    (⟨9, 0, [], fun _ => 0⟩ : StarkVerifyingKey Int Nat Unit)
    []
    (⟨fun _ => 0, 0, []⟩ : Challenger Int Nat)
    (⟨⟨0, 1, 2⟩, ⟨[]⟩, (), fun _ => 0, []⟩ : ShardProof Int Int Nat Unit)
    rfl (by simp) (by simp) (by decide) (by decide)
  exact h

/-! ## C1: shape errors are reported only after the PCS accepts -/

theorem verify_shard_accept_unfold {F E Com Dom OErr PProof : Type}
    [CommRing E] [DecidableEq E]
    (P : ExtParams E) (dops : DomOps E Dom) (nd : Nat → Dom)
    (vk : StarkVerifyingKey F Com Dom) (chips : List (MachineChip F E))
    (challenger : Challenger E Com) (proof : ShardProof F E Com PProof)
    (hlen : chips.length = proof.opened_values.chips.length)
    (hidx : ∀ x ∈ vk.chip_information,
      proof.chip_ordering x.1 < proof.opened_values.chips.length)
    (hquot : ∀ p ∈ proof.opened_values.chips.zip
      (quotientChunkDomains dops (acceptPcs E Com Dom OErr PProof nd) chips
        proof.opened_values.chips),
      p.1.quotient.length = p.2.length) :
    verify_shard P dops (acceptPcs E Com Dom OErr PProof nd) vk chips challenger proof =
      chipLoop P dops (challenger.sampleFn (challenger.count + 3))
        (challenger.sampleFn (challenger.count + 2))
        [challenger.sampleFn challenger.count,
          challenger.sampleFn (challenger.count + 1)]
        proof.public_values
        (zip4 chips
          (traceDomains (acceptPcs E Com Dom OErr PProof nd) proof.opened_values.chips)
          (quotientChunkDomains dops (acceptPcs E Com Dom OErr PProof nd) chips
            proof.opened_values.chips)
          proof.opened_values.chips)
        (Challenger.mk challenger.sampleFn (challenger.count + 4)
          (challenger.events ++ [ChalEvent.sample, ChalEvent.sample,
            ChalEvent.observe proof.commitment.permutation_commit, ChalEvent.sample,
            ChalEvent.observe proof.commitment.quotient_commit, ChalEvent.sample])) := by
  unfold verify_shard
  rw [if_neg (fun hne => hne hlen)]
  simp only [Challenger.sample_ext_element, Challenger.observe]
  split
  next pre' quo' hpre hquo =>
    simp only [acceptPcs]
    simp [List.append_assoc]
  next hno =>
    exfalso
    have h1 : (vk.chip_information.mapM fun nd' =>
        Option.map (fun values =>
          (nd'.2,
            [(challenger.sampleFn (challenger.count + 1 + 1 + 1), values.preprocessed.local'),
              (dops.next_point nd'.2 (challenger.sampleFn (challenger.count + 1 + 1 + 1)),
                values.preprocessed.next)]))
          (proof.opened_values.chips.get? (proof.chip_ordering nd'.1))) ≠ none := by
      apply mapM_option_ne_none
      intro x hx
      obtain ⟨v, hv⟩ : ∃ v,
          proof.opened_values.chips.get? (proof.chip_ordering x.1) = some v := by
        rw [List.get?_eq_getElem?]
        exact ⟨_, List.getElem?_eq_getElem (hidx x hx)⟩
      rw [hv]
      simp
    have h2 : ((proof.opened_values.chips.zip
        (quotientChunkDomains dops (acceptPcs E Com Dom OErr PProof nd) chips
          proof.opened_values.chips)).mapM fun p =>
        Option.map (fun l => List.map (fun vq =>
          (vq.2, [(challenger.sampleFn (challenger.count + 1 + 1 + 1), vq.1)])) l)
          (zipEq p.1.quotient p.2)) ≠ none := by
      apply mapM_option_ne_none
      intro p hp
      have hz := hquot p hp
      rw [zipEq, if_pos hz]
      simp
    obtain ⟨pre', hpre⟩ := Option.ne_none_iff_exists'.mp h1
    obtain ⟨quo', hquo⟩ := Option.ne_none_iff_exists'.mp h2
    exact hno pre' quo' hpre hquo

theorem chipLoop_append_pass {F E Com Dom OErr : Type} [CommRing E] [DecidableEq E]
    (P : ExtParams E) (dops : DomOps E Dom) (zeta alpha : E)
    (permutation_challenges : List E) (public_values : List F)
    (pre rest : List (MachineChip F E × Dom × List Dom × ChipOpenedValues E))
    (ch : Challenger E Com)
    (hpass : ∀ x ∈ pre,
      verify_opening_shape P x.1 x.2.2.2 = Except.ok () ∧
      verify_constraints P dops x.1 x.2.2.2 x.2.1 x.2.2.1 zeta alpha
        permutation_challenges public_values = some (Except.ok ())) :
    @chipLoop F E Com Dom OErr _ _ P dops zeta alpha permutation_challenges public_values
      (pre ++ rest) ch =
      chipLoop P dops zeta alpha permutation_challenges public_values rest ch := by
  induction pre with
  | nil => rfl
  | cons x t ih =>
    obtain ⟨c1, td, qcd, v⟩ := x
    have hx := hpass (c1, td, qcd, v) (by simp)
    rw [List.cons_append]
    simp only [chipLoop, hx.1, hx.2]
    exact ih fun y hy => hpass y (by simp [hy])

theorem chipLoop_head_shape_error {F E Com Dom OErr : Type}
    [CommRing E] [DecidableEq E]
    (P : ExtParams E) (dops : DomOps E Dom) (zeta alpha : E)
    (permutation_challenges : List E) (public_values : List F)
    (c : MachineChip F E) (td : Dom) (qcd : List Dom) (v : ChipOpenedValues E)
    (rest : List (MachineChip F E × Dom × List Dom × ChipOpenedValues E))
    (ch : Challenger E Com) (e : OpeningShapeError)
    (hshape : verify_opening_shape P c v = Except.error e) :
    @chipLoop F E Com Dom OErr _ _ P dops zeta alpha permutation_challenges public_values
      ((c, td, qcd, v) :: rest) ch =
      some (Except.error (VerificationError.OpeningShapeError c.name e)) := by
  simp only [chipLoop, hshape]

/-- C1 (amended): a shape violation is reported as
`OpeningShapeError(chip.name(), …)` only *after* the PCS check: with a PCS
that accepts, if the per-chip iteration reaches a chip whose opening is
ill-shaped (every earlier chip passing both checks), `verify_shard` returns
that chip's `OpeningShapeError`.  (When the PCS rejects, the result is
`InvalidOpeningArgument` instead — see the counterexample — and a
quotient-chunk-count violation aborts during batch assembly before the
PCS.) -/
theorem verify_shard_shape_error_after_pcs {F E Com Dom OErr PProof : Type}
    [CommRing E] [DecidableEq E]
    (P : ExtParams E) (dops : DomOps E Dom) (nd : Nat → Dom)
    (vk : StarkVerifyingKey F Com Dom) (chips : List (MachineChip F E))
    (challenger : Challenger E Com) (proof : ShardProof F E Com PProof)
    (pre post : List (MachineChip F E × Dom × List Dom × ChipOpenedValues E))
    (c : MachineChip F E) (td : Dom) (qcd : List Dom) (v : ChipOpenedValues E)
    (e : OpeningShapeError)
    (hlen : chips.length = proof.opened_values.chips.length)
    (hidx : ∀ x ∈ vk.chip_information,
      proof.chip_ordering x.1 < proof.opened_values.chips.length)
    (hquot : ∀ p ∈ proof.opened_values.chips.zip
      (quotientChunkDomains dops (acceptPcs E Com Dom OErr PProof nd) chips
        proof.opened_values.chips),
      p.1.quotient.length = p.2.length)
    (hsplit : zip4 chips
      (traceDomains (acceptPcs E Com Dom OErr PProof nd) proof.opened_values.chips)
      (quotientChunkDomains dops (acceptPcs E Com Dom OErr PProof nd) chips
        proof.opened_values.chips)
      proof.opened_values.chips = pre ++ (c, td, qcd, v) :: post)
    (hpass : ∀ x ∈ pre,
      verify_opening_shape P x.1 x.2.2.2 = Except.ok () ∧
      verify_constraints P dops x.1 x.2.2.2 x.2.1 x.2.2.1
        (challenger.sampleFn (challenger.count + 3))
        (challenger.sampleFn (challenger.count + 2))
        [challenger.sampleFn challenger.count,
          challenger.sampleFn (challenger.count + 1)]
        proof.public_values = some (Except.ok ()))
    (hshape : verify_opening_shape P c v = Except.error e) :
    verify_shard P dops (acceptPcs E Com Dom OErr PProof nd) vk chips challenger proof =
      some (Except.error (VerificationError.OpeningShapeError c.name e)) := by
  rw [verify_shard_accept_unfold P dops nd vk chips challenger proof hlen hidx hquot]
  rw [hsplit]
  rw [chipLoop_append_pass _ _ _ _ _ _ _ _ _ hpass]
  exact chipLoop_head_shape_error _ _ _ _ _ _ _ _ _ _ _ _ _ hshape

theorem verify_shard_shape_vs_pcs_counterexample :
    verify_opening_shape (⟨1, fun _ => (1 : Int), fun x => x⟩ : ExtParams Int)
      (⟨"cpu", 0, 1, 0, 0, fun _ => 0⟩ : MachineChip Int Int)
      (⟨⟨[], []⟩, ⟨[], []⟩, ⟨[], []⟩, [[5]], 0, 0⟩ : ChipOpenedValues Int) =
      Except.error (OpeningShapeError.MainWidthMismatch 1 0) ∧
    verify_shard (⟨1, fun _ => (1 : Int), fun x => x⟩ : ExtParams Int)
      (⟨fun _ z => z, fun _ p => p + 1, fun _ => 0, fun _ _ => ⟨0, 0, 0, 1⟩,
        fun _ _ => (), fun _ n => List.replicate n ()⟩ : DomOps Int Unit)
      (⟨fun _ => (), fun _ _ _ => Except.error ()⟩ : Pcs Int Nat Unit Unit Unit)
      (⟨9, 0, [], fun _ => 0⟩ : StarkVerifyingKey Int Nat Unit)
      [⟨"cpu", 0, 1, 0, 0, fun _ => 0⟩]
      (⟨fun _ => 0, 0, []⟩ : Challenger Int Nat)
      (⟨⟨0, 1, 2⟩, ⟨[⟨⟨[], []⟩, ⟨[], []⟩, ⟨[], []⟩, [[5]], 0, 0⟩]⟩, (),
        fun _ => 0, []⟩ : ShardProof Int Int Nat Unit) =
      some (Except.error (VerificationError.InvalidopeningArgument ())) :=
  ⟨rfl, rfl⟩

theorem verify_shard_shape_error_after_pcs_witness :
    verify_shard (⟨1, fun _ => (1 : Int), fun x => x⟩ : ExtParams Int)
      (⟨fun _ z => z, fun _ p => p + 1, fun _ => 0, fun _ _ => ⟨0, 0, 0, 1⟩,
        fun _ _ => (), fun _ n => List.replicate n ()⟩ : DomOps Int Unit)
      (acceptPcs Int Nat Unit Unit Unit (fun _ => ()))
      (⟨9, 0, [], fun _ => 0⟩ : StarkVerifyingKey Int Nat Unit)
      [⟨"cpu", 0, 1, 0, 0, fun _ => 0⟩]
      (⟨fun _ => 0, 0, []⟩ : Challenger Int Nat)
      (⟨⟨0, 1, 2⟩, ⟨[⟨⟨[], []⟩, ⟨[], []⟩, ⟨[], []⟩, [[5]], 0, 0⟩]⟩, (),
        fun _ => 0, []⟩ : ShardProof Int Int Nat Unit) =
      some (Except.error (VerificationError.OpeningShapeError "cpu"
        (OpeningShapeError.MainWidthMismatch 1 0))) :=
  verify_shard_shape_error_after_pcs
    (⟨1, fun _ => (1 : Int), fun x => x⟩ : ExtParams Int)
    (⟨fun _ z => z, fun _ p => p + 1, fun _ => 0, fun _ _ => ⟨0, 0, 0, 1⟩,
      fun _ _ => (), fun _ n => List.replicate n ()⟩ : DomOps Int Unit)
    (fun _ => ())
    (⟨9, 0, [], fun _ => 0⟩ : StarkVerifyingKey Int Nat Unit)
    [⟨"cpu", 0, 1, 0, 0, fun _ => 0⟩]
    (⟨fun _ => 0, 0, []⟩ : Challenger Int Nat)
    (⟨⟨0, 1, 2⟩, ⟨[⟨⟨[], []⟩, ⟨[], []⟩, ⟨[], []⟩, [[5]], 0, 0⟩]⟩, (),
      fun _ => 0, []⟩ : ShardProof Int Int Nat Unit)
    [] []
    (⟨"cpu", 0, 1, 0, 0, fun _ => 0⟩ : MachineChip Int Int)
    () [()]
    (⟨⟨[], []⟩, ⟨[], []⟩, ⟨[], []⟩, [[5]], 0, 0⟩ : ChipOpenedValues Int)
    (OpeningShapeError.MainWidthMismatch 1 0)
    rfl (by simp) (by decide) rfl (by simp) rfl

/-! ## C4: per-chip out-of-domain check -/

theorem shape_ok_chunks {F E : Type} (P : ExtParams E) (chip : MachineChip F E)
    (opening : ChipOpenedValues E)
    (hwf : verify_opening_shape P chip opening = Except.ok ()) :
    ∀ ch ∈ opening.quotient, ch.length = P.D := by
  simp only [verify_opening_shape] at hwf
  split_ifs at hwf
  cases hfind : opening.quotient.find? (fun slice => decide (slice.length ≠ P.D)) with
  | none =>
    intro ch hch
    have := List.find?_eq_none.mp hfind ch hch
    simpa using this
  | some bad =>
    rw [hfind] at hwf
    exact absurd hwf (by simp)

/-- C4: for a chip with a well-shaped opening whose quotient chunks match
its chunk domains one for one (as `verify_shard` guarantees: the shape
check pins the chunk count to `quotient_width` and batch assembly `zip_eq`s
the chunks against the `quotient_width` chunk domains),
`verify_constraints` returns `Ok(())` iff
`eval_constraints(...) * sels.inv_zeroifier == recompute_quotient(...)`;
and on inequality the per-chip loop of `verify_shard` maps the failure to
`OodEvaluationMismatch(chip.name())`. -/
theorem verify_constraints_ood_check {F E Com Dom OErr : Type}
    [CommRing E] [DecidableEq E]
    (P : ExtParams E) (dops : DomOps E Dom) (chip : MachineChip F E)
    (opening : ChipOpenedValues E) (td : Dom) (qcd : List Dom)
    (zeta alpha : E) (permutation_challenges : List E) (public_values : List F)
    (hwf : verify_opening_shape P chip opening = Except.ok ())
    (hqlen : opening.quotient.length = qcd.length) :
    ((verify_constraints P dops chip opening td qcd zeta alpha
        permutation_challenges public_values = some (Except.ok ())) ↔
      eval_constraints P chip opening (dops.selectors_at_point td zeta) alpha
          permutation_challenges public_values *
        (dops.selectors_at_point td zeta).inv_zeroifier =
        recompute_quotient_val P dops opening qcd zeta) ∧
    (verify_constraints P dops chip opening td qcd zeta alpha
        permutation_challenges public_values =
        some (Except.error OodEvaluationMismatch.mk) →
      ∀ (rest : List (MachineChip F E × Dom × List Dom × ChipOpenedValues E))
        (ch : Challenger E Com),
        @chipLoop F E Com Dom OErr _ _ P dops zeta alpha permutation_challenges
          public_values ((chip, td, qcd, opening) :: rest) ch =
          some (Except.error
            (VerificationError.OodEvaluationMismatch chip.name))) := by
  have hall : (opening.quotient.all fun c' => decide (c'.length = P.D)) = true := by
    rw [List.all_eq_true]
    intro x hx
    exact decide_eq_true (shape_ok_chunks P chip opening hwf x hx)
  have hcond : ((opening.quotient.all fun c' => decide (c'.length = P.D)) = true) ∧
      (P.D = 0 ∨ opening.quotient.length ≤ qcd.length) :=
    ⟨hall, Or.inr (le_of_eq hqlen)⟩
  constructor
  · simp only [verify_constraints, recompute_quotient, if_pos hcond]
    by_cases hc : eval_constraints P chip opening
        (dops.selectors_at_point td zeta) alpha permutation_challenges
        public_values * (dops.selectors_at_point td zeta).inv_zeroifier =
        recompute_quotient_val P dops opening qcd zeta
    · simp [hc]
    · simp [hc]
  · intro hvc rest ch
    simp only [chipLoop, hwf, hvc]

theorem verify_constraints_ood_check_witness :
    chipLoop (⟨1, fun _ => (1 : Int), fun x => x⟩ : ExtParams Int)
      (⟨fun _ z => z, fun _ p => p + 1, fun _ => 0, fun _ _ => ⟨0, 0, 0, 1⟩,
        fun _ _ => (), fun _ n => List.replicate n ()⟩ : DomOps Int Unit)
      1 1 [] []
      [((⟨"c", 0, 0, 0, 0, fun _ => 1⟩ : MachineChip Int Int), (), [()],
        (⟨⟨[], []⟩, ⟨[], []⟩, ⟨[], []⟩, [[0]], 0, 0⟩ : ChipOpenedValues Int))]
      (⟨fun _ => 0, 0, []⟩ : Challenger Int Nat) =
      (some (Except.error (VerificationError.OodEvaluationMismatch "c")) :
        Option (Except (VerificationError Unit) (Challenger Int Nat))) :=
  (verify_constraints_ood_check
    (⟨1, fun _ => (1 : Int), fun x => x⟩ : ExtParams Int)
    (⟨fun _ z => z, fun _ p => p + 1, fun _ => 0, fun _ _ => ⟨0, 0, 0, 1⟩,
      fun _ _ => (), fun _ n => List.replicate n ()⟩ : DomOps Int Unit)
    (⟨"c", 0, 0, 0, 0, fun _ => 1⟩ : MachineChip Int Int)
    (⟨⟨[], []⟩, ⟨[], []⟩, ⟨[], []⟩, [[0]], 0, 0⟩ : ChipOpenedValues Int)
    () [()] 1 1 [] [] rfl rfl).2 rfl []
    (⟨fun _ => 0, 0, []⟩ : Challenger Int Nat)

/-! ## C2 and C7: the Merkle vector commitment -/

theorem reverseBitsLen_lt : ∀ (b x : Nat), reverseBitsLen x b < 2 ^ b := by
  intro b
  induction b with
  | zero => intro x; simp [reverseBitsLen]
  | succ b ih =>
    intro x
    have h1 := ih (x / 2)
    have h2 : x % 2 < 2 := Nat.mod_lt x (by omega)
    have h3 : x % 2 * 2 ^ b ≤ 2 ^ b := by
      have : x % 2 ≤ 1 := by omega
      calc x % 2 * 2 ^ b ≤ 1 * 2 ^ b := Nat.mul_le_mul_right _ this
        _ = 2 ^ b := by ring
    have h4 : (2 : Nat) ^ (b + 1) = 2 ^ b + 2 ^ b := by
      rw [pow_succ]
      ring
    simp only [reverseBitsLen]
    omega

theorem reverseBitsLen_add_high :
    ∀ (b y c : Nat), y < 2 ^ b → c ≤ 1 →
      reverseBitsLen (y + c * 2 ^ b) (b + 1) = 2 * reverseBitsLen y b + c := by
  intro b
  induction b with
  | zero =>
    intro y c hy hc
    have hy0 : y = 0 := by omega
    subst hy0
    simp only [reverseBitsLen]
    interval_cases c <;> rfl
  | succ b ih =>
    intro y c hy hc
    have hkey : c * 2 ^ (b + 1) = 2 * (c * 2 ^ b) := by
      rw [pow_succ]
      ring
    have hdiv : (y + c * 2 ^ (b + 1)) / 2 = y / 2 + c * 2 ^ b := by
      rw [hkey]
      omega
    have hmod : (y + c * 2 ^ (b + 1)) % 2 = y % 2 := by
      rw [hkey]
      omega
    have hyd : y / 2 < 2 ^ b := by
      have h2 : (2 : Nat) ^ (b + 1) = 2 * 2 ^ b := by rw [pow_succ]; ring
      omega
    show reverseBitsLen ((y + c * 2 ^ (b + 1)) / 2) (b + 1) +
        (y + c * 2 ^ (b + 1)) % 2 * 2 ^ (b + 1) =
      2 * (reverseBitsLen (y / 2) b + y % 2 * 2 ^ b) + c
    rw [hdiv, hmod, ih (y / 2) c hyd hc]
    have h2 : (2 : Nat) ^ (b + 1) = 2 * 2 ^ b := by rw [pow_succ]; ring
    rw [h2]
    ring

theorem reverseBitsLen_involutive :
    ∀ (b x : Nat), x < 2 ^ b → reverseBitsLen (reverseBitsLen x b) b = x := by
  intro b
  induction b with
  | zero => intro x hx; simp [reverseBitsLen]; omega
  | succ b ih =>
    intro x hx
    have hxd : x / 2 < 2 ^ b := by
      have h2 : (2 : Nat) ^ (b + 1) = 2 * 2 ^ b := by rw [pow_succ]; ring
      omega
    have hrev : reverseBitsLen (x / 2) b < 2 ^ b := reverseBitsLen_lt b (x / 2)
    have hmod : x % 2 ≤ 1 := by omega
    show reverseBitsLen (reverseBitsLen (x / 2) b + x % 2 * 2 ^ b) (b + 1) = x
    rw [reverseBitsLen_add_high b _ _ hrev hmod, ih (x / 2) hxd]
    omega

theorem openAux_length {Digest : Type} (dflt : Digest) (L : List Digest) :
    ∀ (f bri offset : Nat),
      (MerkleTree.openAux dflt L f bri offset).length = f := by
  intro f
  induction f with
  | zero => intro bri offset; rfl
  | succ f ih =>
    intro bri offset
    simp [MerkleTree.openAux, ih]

theorem compressPairs_length {Digest : Type}
    (compress : Digest → Digest → Digest) :
    ∀ L : List Digest,
      (MerkleTree.compressPairs compress L).length = L.length / 2
  | [] => by simp [MerkleTree.compressPairs]
  | [_] => by simp [MerkleTree.compressPairs]
  | a :: b :: rest => by
    simp only [MerkleTree.compressPairs, List.length_cons,
      compressPairs_length compress rest]
    omega

theorem compressPairs_getD {Digest : Type}
    (compress : Digest → Digest → Digest) (d : Digest) :
    ∀ (L : List Digest) (j : Nat), 2 * j + 1 < L.length →
      (MerkleTree.compressPairs compress L).getD j d =
        compress (L.getD (2 * j) d) (L.getD (2 * j + 1) d)
  | [], j, h => by simp at h
  | [_], j, h => by simp at h
  | a :: b :: rest, 0, _ => by simp [MerkleTree.compressPairs]
  | a :: b :: rest, j + 1, h => by
    have hr : 2 * j + 1 < rest.length := by
      simp only [List.length_cons] at h
      omega
    have h1 : 2 * (j + 1) = 2 * j + 1 + 1 := by omega
    have h2 : 2 * (j + 1) + 1 = 2 * j + 1 + 1 + 1 := by omega
    simp only [MerkleTree.compressPairs, List.getD_cons_succ, h1, h2]
    exact compressPairs_getD compress d rest j hr

theorem layerN_shift {Digest : Type} (compress : Digest → Digest → Digest) :
    ∀ (k : Nat) (L : List Digest),
      MerkleTree.layerN compress (MerkleTree.compressPairs compress L) k =
        MerkleTree.layerN compress L (k + 1) := by
  intro k
  induction k with
  | zero => intro L; rfl
  | succ k ih =>
    intro L
    show MerkleTree.compressPairs compress
        (MerkleTree.layerN compress (MerkleTree.compressPairs compress L) k) = _
    rw [ih L]
    rfl

theorem layersTo_append {Digest : Type} (compress : Digest → Digest → Digest) :
    ∀ (f : Nat) (L : List Digest),
      MerkleTree.layersTo compress L (f + 1) =
        MerkleTree.layersTo compress L f ++ MerkleTree.layerN compress L f := by
  intro f
  induction f with
  | zero => intro L; simp [MerkleTree.layersTo, MerkleTree.layerN]
  | succ f ih =>
    intro L
    show L ++ MerkleTree.layersTo compress (MerkleTree.compressPairs compress L) (f + 1) = _
    rw [ih (MerkleTree.compressPairs compress L), layerN_shift]
    show L ++ (MerkleTree.layersTo compress (MerkleTree.compressPairs compress L) f ++ _) = _
    rw [← List.append_assoc]
    rfl

theorem layersFlat_eq_layersTo {Digest : Type}
    (compress : Digest → Digest → Digest) :
    ∀ (m : Nat) (L : List Digest),
      MerkleTree.layersFlat compress L m = MerkleTree.layersTo compress L (m + 1) := by
  intro m
  induction m with
  | zero => intro L; simp [MerkleTree.layersFlat, MerkleTree.layersTo]
  | succ m ih =>
    intro L
    show MerkleTree.layersFlat compress L m ++ MerkleTree.layerN compress L (m + 1) = _
    rw [ih L, layersTo_append compress (m + 1) L]

theorem layerN_length {Digest : Type} (compress : Digest → Digest → Digest)
    (hh : Nat) :
    ∀ (k : Nat) (L : List Digest), L.length = 2 ^ hh → k ≤ hh →
      (MerkleTree.layerN compress L k).length = 2 ^ (hh - k) := by
  intro k
  induction k with
  | zero => intro L hL _; simpa [MerkleTree.layerN] using hL
  | succ k ih =>
    intro L hL hk
    show (MerkleTree.compressPairs compress (MerkleTree.layerN compress L k)).length = _
    rw [compressPairs_length, ih L hL (by omega)]
    have h1 : hh - k = (hh - (k + 1)) + 1 := by omega
    rw [h1, pow_succ]
    omega

theorem getD_append_offset {α : Type} (X Y : List α) (i : Nat) (d : α) :
    (X ++ Y).getD (X.length + i) d = Y.getD i d := by
  have hsub : X.length + i - X.length = i := by omega
  rw [List.getD_eq_getElem?_getD, List.getD_eq_getElem?_getD,
    List.getElem?_append_right (by omega), hsub]

theorem getD_append_left {α : Type} (X Y : List α) (i : Nat) (d : α)
    (h : i < X.length) : (X ++ Y).getD i d = X.getD i d := by
  rw [List.getD_eq_getElem?_getD, List.getD_eq_getElem?_getD,
    List.getElem?_append, if_pos h]

theorem verifyClimb_openAux {Digest : Type}
    (compress : Digest → Digest → Digest) (d : Digest) :
    ∀ (f : Nat) (L X : List Digest) (j : Nat), L.length = 2 ^ f → j < 2 ^ f →
      MerkleTree.verifyClimb compress (L.getD j d) j
        (MerkleTree.openAux d (X ++ MerkleTree.layersTo compress L f) f j
          X.length) =
      (MerkleTree.layerN compress L f).getD 0 d := by
  intro f
  induction f with
  | zero =>
    intro L X j _ hj
    have hj0 : j = 0 := by omega
    subst hj0
    rfl
  | succ f ih =>
    intro L X j hL hj
    have heven : (2 : Nat) ^ (f + 1) = 2 * 2 ^ f := by rw [pow_succ]; ring
    have hLc : (MerkleTree.compressPairs compress L).length = 2 ^ f := by
      rw [compressPairs_length, hL]
      omega
    have hj2 : j / 2 < 2 ^ f := by omega
    show MerkleTree.verifyClimb compress (L.getD j d) j
        ((X ++ (L ++ MerkleTree.layersTo compress
            (MerkleTree.compressPairs compress L) f)).getD
          (X.length + (if j % 2 = 0 then j + 1 else j - 1)) d ::
          MerkleTree.openAux d
            (X ++ (L ++ MerkleTree.layersTo compress
              (MerkleTree.compressPairs compress L) f))
            f (j / 2) (X.length + 2 ^ (f + 1))) =
      (MerkleTree.layerN compress L (f + 1)).getD 0 d
    rw [getD_append_offset]
    have hsib : (if j % 2 = 0 then j + 1 else j - 1) < L.length := by
      rw [hL]
      split
      · omega
      · omega
    rw [getD_append_left _ _ _ _ hsib]
    show MerkleTree.verifyClimb compress
        (if j % 2 = 0 then
          compress (L.getD j d) (L.getD (if j % 2 = 0 then j + 1 else j - 1) d)
        else
          compress (L.getD (if j % 2 = 0 then j + 1 else j - 1) d) (L.getD j d))
        (j / 2)
        (MerkleTree.openAux d
          (X ++ (L ++ MerkleTree.layersTo compress
            (MerkleTree.compressPairs compress L) f))
          f (j / 2) (X.length + 2 ^ (f + 1))) =
      (MerkleTree.layerN compress L (f + 1)).getD 0 d
    have hval : (if j % 2 = 0 then
          compress (L.getD j d) (L.getD (if j % 2 = 0 then j + 1 else j - 1) d)
        else
          compress (L.getD (if j % 2 = 0 then j + 1 else j - 1) d) (L.getD j d)) =
        (MerkleTree.compressPairs compress L).getD (j / 2) d := by
      by_cases hpar : j % 2 = 0
      · rw [if_pos hpar, if_pos hpar,
          compressPairs_getD compress d L (j / 2) (by rw [hL]; omega)]
        have h1 : 2 * (j / 2) = j := by omega
        have h2 : 2 * (j / 2) + 1 = j + 1 := by omega
        rw [h2, h1]
      · rw [if_neg hpar, if_neg hpar,
          compressPairs_getD compress d L (j / 2) (by rw [hL]; omega)]
        have h1 : 2 * (j / 2) = j - 1 := by omega
        have h2 : 2 * (j / 2) + 1 = j := by omega
        rw [h2, h1]
    rw [hval]
    have hoff : X.length + 2 ^ (f + 1) = (X ++ L).length := by
      simp [hL]
    rw [hoff, ← List.append_assoc, ← layerN_shift]
    exact ih (MerkleTree.compressPairs compress L) (X ++ L) (j / 2) hLc hj2

theorem clog2Aux_le : ∀ (f n : Nat), n ≤ f → n ≤ 2 ^ clog2Aux f n := by
  intro f
  induction f with
  | zero =>
    intro n hn
    simp [clog2Aux]
    omega
  | succ f ih =>
    intro n hn
    by_cases h1 : n ≤ 1
    · simp [clog2Aux, h1]
    · simp only [clog2Aux, if_neg h1]
      have hrec : (n + 1) / 2 ≤ f := by omega
      have hle := ih ((n + 1) / 2) hrec
      have h2 : n ≤ 2 * ((n + 1) / 2) := by omega
      calc n ≤ 2 * ((n + 1) / 2) := h2
        _ ≤ 2 * 2 ^ clog2Aux f ((n + 1) / 2) := by omega
        _ = 2 ^ (clog2Aux f ((n + 1) / 2) + 1) := by rw [pow_succ]; ring

theorem clog2_le (n : Nat) : n ≤ 2 ^ clog2 n := clog2Aux_le n n le_rfl

theorem clog2_pos {n : Nat} (h : 2 ≤ n) : 1 ≤ clog2 n := by
  obtain ⟨k, rfl⟩ : ∃ k, n = k + 2 := ⟨n - 2, by omega⟩
  show 1 ≤ clog2Aux (k + 2) (k + 2)
  simp only [clog2Aux, if_neg (by omega : ¬ k + 2 ≤ 1)]
  omega

theorem bitRevPerm_length {α : Type} (d : α) (h : Nat) (l : List α) :
    (bitRevPerm d h l).length = 2 ^ h := by
  simp [bitRevPerm]

theorem commit_eq {Digest : Type} (dflt : Digest)
    (compress : Digest → Digest → Digest) (leaves : List Digest)
    (h2 : 2 ≤ leaves.length) :
    MerkleTree.commit dflt compress leaves =
      some ((MerkleTree.layerN compress
          (bitRevPerm dflt (clog2 leaves.length)
            (leaves ++ List.replicate
              (2 ^ clog2 leaves.length - leaves.length) dflt))
          (clog2 leaves.length)).getD 0 dflt,
        ⟨clog2 leaves.length,
          MerkleTree.layersFlat compress
            (bitRevPerm dflt (clog2 leaves.length)
              (leaves ++ List.replicate
                (2 ^ clog2 leaves.length - leaves.length) dflt))
            (clog2 leaves.length - 1)⟩) := by
  have hne : leaves.isEmpty = false := by
    cases leaves with
    | nil => simp at h2
    | cons a t => rfl
  have hpos : 1 ≤ clog2 leaves.length := clog2_pos h2
  rw [MerkleTree.commit]
  rw [if_neg (by simp [hne])]
  rw [if_neg (by omega)]
  have hlen : (bitRevPerm dflt (clog2 leaves.length)
      (leaves ++ List.replicate
        (2 ^ clog2 leaves.length - leaves.length) dflt)).length =
      2 ^ clog2 leaves.length := bitRevPerm_length _ _ _
  have hlast : (MerkleTree.layerN compress
      (bitRevPerm dflt (clog2 leaves.length)
        (leaves ++ List.replicate
          (2 ^ clog2 leaves.length - leaves.length) dflt))
      (clog2 leaves.length - 1)).length = 2 := by
    rw [layerN_length compress (clog2 leaves.length) _ _ hlen (by omega)]
    have h1 : clog2 leaves.length - (clog2 leaves.length - 1) = 1 := by omega
    rw [h1]
    rfl
  obtain ⟨a, b, hab⟩ := List.length_eq_two.mp hlast
  rw [hab]
  have h1 : clog2 leaves.length = (clog2 leaves.length - 1) + 1 := by omega
  have hroot : compress a b =
      (MerkleTree.layerN compress
        (bitRevPerm dflt (clog2 leaves.length)
          (leaves ++ List.replicate
            (2 ^ clog2 leaves.length - leaves.length) dflt))
        (clog2 leaves.length)).getD 0 dflt := by
    calc compress a b
        = (MerkleTree.compressPairs compress [a, b]).getD 0 dflt := rfl
      _ = (MerkleTree.compressPairs compress
            (MerkleTree.layerN compress
              (bitRevPerm dflt (clog2 leaves.length)
                (leaves ++ List.replicate
                  (2 ^ clog2 leaves.length - leaves.length) dflt))
              (clog2 leaves.length - 1))).getD 0 dflt := by rw [hab]
      _ = (MerkleTree.layerN compress
            (bitRevPerm dflt (clog2 leaves.length)
              (leaves ++ List.replicate
                (2 ^ clog2 leaves.length - leaves.length) dflt))
            ((clog2 leaves.length - 1) + 1)).getD 0 dflt := rfl
      _ = (MerkleTree.layerN compress
            (bitRevPerm dflt (clog2 leaves.length)
              (leaves ++ List.replicate
                (2 ^ clog2 leaves.length - leaves.length) dflt))
            (clog2 leaves.length)).getD 0 dflt := by rw [← h1]
  show some (compress a b,
      (⟨clog2 leaves.length,
        MerkleTree.layersFlat compress
          (bitRevPerm dflt (clog2 leaves.length)
            (leaves ++ List.replicate
              (2 ^ clog2 leaves.length - leaves.length) dflt))
          (clog2 leaves.length - 1)⟩ : MerkleTree Digest)) = _
  rw [hroot]

theorem open_verify_spec {Digest : Type} [DecidableEq Digest]
    (dflt : Digest) (compress : Digest → Digest → Digest)
    (L0 : List Digest) (h : Nat) (hpos : 1 ≤ h) (hL : L0.length = 2 ^ h)
    (j : Nat) (hj : j < 2 ^ h) :
    (MerkleTree.open' dflt ⟨h, MerkleTree.layersFlat compress L0 (h - 1)⟩ j).1 =
      L0.getD (reverseBitsLen j h) dflt ∧
    (MerkleTree.open' dflt
      ⟨h, MerkleTree.layersFlat compress L0 (h - 1)⟩ j).2.length = h ∧
    MerkleTree.verify compress j
      (MerkleTree.open' dflt ⟨h, MerkleTree.layersFlat compress L0 (h - 1)⟩ j).1
      (MerkleTree.open' dflt ⟨h, MerkleTree.layersFlat compress L0 (h - 1)⟩ j).2
      ((MerkleTree.layerN compress L0 h).getD 0 dflt) = Except.ok () := by
  obtain ⟨hh, rfl⟩ : ∃ hh, h = hh + 1 := ⟨h - 1, by omega⟩
  have hrev : reverseBitsLen j (hh + 1) < 2 ^ (hh + 1) := reverseBitsLen_lt _ j
  have hval : (MerkleTree.open' dflt
      ⟨hh + 1, MerkleTree.layersFlat compress L0 (hh + 1 - 1)⟩ j).1 =
      L0.getD (reverseBitsLen j (hh + 1)) dflt := by
    show (MerkleTree.layersFlat compress L0 hh).getD
      (reverseBitsLen j (hh + 1)) dflt = _
    rw [layersFlat_eq_layersTo]
    show (L0 ++ MerkleTree.layersTo compress
      (MerkleTree.compressPairs compress L0) hh).getD
        (reverseBitsLen j (hh + 1)) dflt = _
    rw [getD_append_left _ _ _ _ (by rw [hL]; exact hrev)]
  have hplen : (MerkleTree.open' dflt
      ⟨hh + 1, MerkleTree.layersFlat compress L0 (hh + 1 - 1)⟩ j).2.length =
      hh + 1 := openAux_length dflt _ _ _ _
  refine ⟨hval, hplen, ?_⟩
  have hclimb := verifyClimb_openAux compress dflt (hh + 1) L0 []
    (reverseBitsLen j (hh + 1)) hL hrev
  simp only [List.nil_append, List.length_nil] at hclimb
  rw [MerkleTree.verify, hplen, hval]
  show (if MerkleTree.verifyClimb compress
      (L0.getD (reverseBitsLen j (hh + 1)) dflt) (reverseBitsLen j (hh + 1))
      (MerkleTree.openAux dflt (MerkleTree.layersFlat compress L0 hh) (hh + 1)
        (reverseBitsLen j (hh + 1)) 0) =
      (MerkleTree.layerN compress L0 (hh + 1)).getD 0 dflt then
        Except.ok () else Except.error VcsError.vcsError) = Except.ok ()
  rw [layersFlat_eq_layersTo]
  rw [if_pos hclimb]

/-- C2 (amended): the Merkle round-trip holds for every leaf sequence with
at least two leaves: `commit` succeeds, `open` at any `i < leaves.len()`
returns `leaves[i]` with a path of length `height`, and `verify` accepts.
(`commit` on a single leaf panics — `0..height-1` underflows — see the
counterexample, which is the one correction to the claim's "∀ non-empty
leaves".) -/
theorem merkle_round_trip {Digest : Type} [DecidableEq Digest]
    (dflt : Digest) (compress : Digest → Digest → Digest)
    (leaves : List Digest) (h2 : 2 ≤ leaves.length)
    (i : Nat) (hi : i < leaves.length) :
    ∃ root t, MerkleTree.commit dflt compress leaves = some (root, t) ∧
      (MerkleTree.open' dflt t i).1 = leaves.getD i dflt ∧
      (MerkleTree.open' dflt t i).2.length = t.height ∧
      MerkleTree.verify compress i (MerkleTree.open' dflt t i).1
        (MerkleTree.open' dflt t i).2 root = Except.ok () := by
  have hpos : 1 ≤ clog2 leaves.length := clog2_pos h2
  have hi2 : i < 2 ^ clog2 leaves.length :=
    lt_of_lt_of_le hi (clog2_le leaves.length)
  have hlen : (bitRevPerm dflt (clog2 leaves.length)
      (leaves ++ List.replicate
        (2 ^ clog2 leaves.length - leaves.length) dflt)).length =
      2 ^ clog2 leaves.length := bitRevPerm_length _ _ _
  have hOV := open_verify_spec dflt compress
    (bitRevPerm dflt (clog2 leaves.length)
      (leaves ++ List.replicate (2 ^ clog2 leaves.length - leaves.length) dflt))
    (clog2 leaves.length) hpos hlen i hi2
  refine ⟨_, _, commit_eq dflt compress leaves h2, ?_, hOV.2.1, hOV.2.2⟩
  rw [hOV.1]
  have hrevlt : reverseBitsLen i (clog2 leaves.length) <
      2 ^ clog2 leaves.length := reverseBitsLen_lt _ i
  rw [bitRevPerm, getD_range_map _ _ _ _ hrevlt,
    reverseBitsLen_involutive _ i hi2,
    getD_append_left _ _ _ _ hi]

theorem merkle_round_trip_witness :
    2 ≤ ([10, 11, 12] : List Nat).length ∧
    ∃ root t,
      MerkleTree.commit (0 : Nat) (fun a b => 2 * a + 3 * b + 1)
        [10, 11, 12] = some (root, t) ∧
      (MerkleTree.open' 0 t 1).1 = [10, 11, 12].getD 1 0 ∧
      (MerkleTree.open' 0 t 1).2.length = t.height ∧
      MerkleTree.verify (fun a b => 2 * a + 3 * b + 1) 1
        (MerkleTree.open' 0 t 1).1 (MerkleTree.open' 0 t 1).2 root =
        Except.ok () :=
  ⟨by decide,
    merkle_round_trip 0 (fun a b => 2 * a + 3 * b + 1) [10, 11, 12]
      (by decide) 1 (by decide)⟩

theorem merkle_commit_singleton_counterexample :
    ([5] : List Nat) ≠ [] ∧ 0 < ([5] : List Nat).length ∧
    MerkleTree.commit (0 : Nat) (fun a b => 2 * a + 3 * b + 1) [5] = none :=
  ⟨by decide, by decide, rfl⟩

/-- C7 (amended): the index arguments of `open` and `verify` are NATURAL
leaf indices — both functions apply the bit-reversal internally (`verify`
mirrors `open`'s index treatment), so for any committed tree and any
`j < 2^height`, opening at `j` returns the padded leaf at position `j`
(not at the bit-reversed position) and verifying with the same `j`
succeeds.  The caller must NOT pre-bit-reverse: opening at
`rev(i)` returns `leaves[rev(i)]`, not `leaves[i]` (see the
counterexample). -/
theorem merkle_natural_index_convention {Digest : Type} [DecidableEq Digest]
    (dflt : Digest) (compress : Digest → Digest → Digest)
    (leaves : List Digest) (root : Digest) (t : MerkleTree Digest)
    (h2 : 2 ≤ leaves.length)
    (hc : MerkleTree.commit dflt compress leaves = some (root, t))
    (j : Nat) (hj : j < 2 ^ t.height) :
    (MerkleTree.open' dflt t j).1 =
      (leaves ++ List.replicate (2 ^ t.height - leaves.length) dflt).getD j dflt ∧
    (MerkleTree.open' dflt t j).2.length = t.height ∧
    MerkleTree.verify compress j (MerkleTree.open' dflt t j).1
      (MerkleTree.open' dflt t j).2 root = Except.ok () := by
  have heq := hc.symm.trans (commit_eq dflt compress leaves h2)
  rw [Option.some.injEq, Prod.mk.injEq] at heq
  obtain ⟨hroot, ht⟩ := heq
  subst ht
  subst hroot
  have hpos : 1 ≤ clog2 leaves.length := clog2_pos h2
  have hlen : (bitRevPerm dflt (clog2 leaves.length)
      (leaves ++ List.replicate
        (2 ^ clog2 leaves.length - leaves.length) dflt)).length =
      2 ^ clog2 leaves.length := bitRevPerm_length _ _ _
  have hj2 : j < 2 ^ clog2 leaves.length := hj
  have hOV := open_verify_spec dflt compress
    (bitRevPerm dflt (clog2 leaves.length)
      (leaves ++ List.replicate (2 ^ clog2 leaves.length - leaves.length) dflt))
    (clog2 leaves.length) hpos hlen j hj2
  refine ⟨?_, hOV.2.1, hOV.2.2⟩
  rw [hOV.1]
  have hrevlt : reverseBitsLen j (clog2 leaves.length) <
      2 ^ clog2 leaves.length := reverseBitsLen_lt _ j
  rw [bitRevPerm, getD_range_map _ _ _ _ hrevlt,
    reverseBitsLen_involutive _ j hj2]

theorem merkle_natural_index_convention_witness :
    (MerkleTree.open' (0 : Nat)
        (⟨2, [10, 12, 11, 13, 57, 62]⟩ : MerkleTree Nat) 2).1 =
      ([10, 11, 12, 13] ++ List.replicate (2 ^ 2 - 4) 0).getD 2 0 ∧
    (MerkleTree.open' (0 : Nat)
        (⟨2, [10, 12, 11, 13, 57, 62]⟩ : MerkleTree Nat) 2).2.length = 2 ∧
    MerkleTree.verify (fun a b => 2 * a + 3 * b + 1) 2
      (MerkleTree.open' (0 : Nat)
        (⟨2, [10, 12, 11, 13, 57, 62]⟩ : MerkleTree Nat) 2).1
      (MerkleTree.open' (0 : Nat)
        (⟨2, [10, 12, 11, 13, 57, 62]⟩ : MerkleTree Nat) 2).2 301 =
      Except.ok () :=
  merkle_natural_index_convention 0 (fun a b => 2 * a + 3 * b + 1)
    [10, 11, 12, 13] 301 ⟨2, [10, 12, 11, 13, 57, 62]⟩ (by decide) (by rfl) 2
    (by decide)

theorem merkle_bit_reversed_index_counterexample :
    (MerkleTree.commit (0 : Nat) (fun a b => 2 * a + 3 * b + 1)
        [10, 11, 12, 13]).map
      (fun rt => (MerkleTree.open' 0 rt.2 (reverseBitsLen 1 2)).1) = some 12 ∧
    [10, 11, 12, 13].getD 1 0 = 11 ∧ (12 : Nat) ≠ 11 ∧
    reverseBitsLen 1 2 = 2 :=
  ⟨rfl, rfl, by decide, rfl⟩
